import Mathlib

/-!
Verification of the encrypted patient record store of the intake-form
repository.

The development shallowly embeds the JavaScript sources:

* `src/src/storage.js` — the `StorageService` class (validation, enrichment,
  LRU cache, localforage primary backend, localStorage fallback, retry).
* `src/unnamed/part_002` — the Dexie-backed `SecureStorage` service.
* `src/unnamed/part_004` — the Web-Crypto AES-GCM encryption wrappers
  (`generateKey`, `encrypt`, `decrypt`).

JavaScript objects are modelled by `JsValue`; the asynchronous, single-
threaded operations are modelled as explicit state-passing functions on a
`SvcState` (the event loop serialises each operation, see spec §5).
Platform primitives that are not part of the repository (Web Crypto,
`JSON`, `TextEncoder`) are modelled from the specification's words; each
such definition carries a doc comment saying exactly what is abstracted.
-/

/-! ## JavaScript value model -/

mutual

/-- A JSON-representable JavaScript value: `null`, booleans, numbers,
strings, arrays and plain objects.  Numbers are modelled as `Nat`; the
only numbers the store produces are the non-negative `accessCount`
counters and timestamps. -/
inductive JsValue where
  | nullv
  | boolv (b : Bool)
  | num (n : Nat)
  | str (s : String)
  | arr (elems : JsArray)
  | obj (fields : JsFields)
deriving DecidableEq, Repr

/-- Spine of a JavaScript array value. -/
inductive JsArray where
  | nil
  | cons (hd : JsValue) (tl : JsArray)
deriving DecidableEq, Repr

/-- Ordered own-property list of a JavaScript object (JS objects preserve
string-key insertion order, which object spread relies on). -/
inductive JsFields where
  | nil
  | cons (key : String) (val : JsValue) (tl : JsFields)
deriving DecidableEq, Repr

end

/-- First binding of `key`, i.e. JavaScript property lookup `o[key]`;
`none` models `undefined`. -/
def JsFields.lookupF : JsFields → String → Option JsValue
  | .nil, _ => none
  | .cons k v tl, key => if k = key then some v else tl.lookupF key

/-- Property assignment `o[key] = v` / spread override: replaces the value
in place when the key exists (JS keeps the original insertion position),
otherwise appends the new key at the end. -/
def JsFields.setF : JsFields → String → JsValue → JsFields
  | .nil, key, v => .cons key v .nil
  | .cons k v' tl, key, v =>
      if k = key then .cons k v tl else .cons k v' (tl.setF key v)

/-- Object spread `\x7b...a, ...b\x7d`: `a`'s fields updated and extended by
`b`'s fields in `b`'s order. -/
def JsFields.mergeF : JsFields → JsFields → JsFields
  | a, .nil => a
  | a, .cons k v tl => (a.setF k v).mergeF tl

/-- JavaScript truthiness: `null`, `false`, `0` and `""` are falsy. -/
def JsValue.jsTruthy : JsValue → Bool
  | .nullv => false
  | .boolv b => b
  | .num n => n ≠ 0
  | .str s => s ≠ ""
  | .arr _ => true
  | .obj _ => true

/-- The JavaScript `typeof` operator; `null` and arrays both report
`"object"`. -/
def JsValue.jsTypeof : JsValue → String
  | .nullv => "object"
  | .boolv _ => "boolean"
  | .num _ => "number"
  | .str _ => "string"
  | .arr _ => "object"
  | .obj _ => "object"

/-- Property access `v.key`: defined for objects, `undefined` (`none`)
otherwise.  (Array values only have numeric index properties; none of the
property names the store reads is numeric.) -/
def JsValue.getField : JsValue → String → Option JsValue
  | .obj fs, key => fs.lookupF key
  | _, _ => none

/-- The own enumerable fields an object spread copies out of a value:
the fields of an object, nothing for primitives (the string corner case of
spreading index properties is never reached by the store, which only
spreads validated objects and `metadata` values it created itself). -/
def JsValue.spreadFields : JsValue → JsFields
  | .obj fs => fs
  | _ => .nil

/-- `String.prototype.trim`: strips leading and trailing whitespace.
(Modelled over the char list because Lean's own `String.trim` is defined
on byte positions and does not reduce in the kernel.) -/
def jsTrim (s : String) : String :=
  ⟨(((s.data.dropWhile Char.isWhitespace).reverse).dropWhile Char.isWhitespace).reverse⟩

/-- The character class of the validator's ID regex `[a-zA-Z0-9]`
(`Char.isAlpha`/`Char.isDigit` are exactly the ASCII ranges the regex
uses). -/
def isAlphaNum (c : Char) : Bool := c.isAlpha || c.isDigit

/-! ## JSON (platform `JSON.stringify` / `JSON.parse`)

The repository serialises through the host's `JSON` object.  The model
implements the JSON fragment the store produces: a printer and a
fuel-indexed parser over the characters of the string.  Nothing needs to
be proved about them in general; concrete round trips are evaluated by the
kernel. -/

/-- Escapes `"` and `\` inside a JSON string literal (the only characters
the modelled records require escaping for). -/
def jsonEscape (s : String) : String :=
  ⟨s.data.foldr (fun c acc =>
    if c = '"' then '\\' :: '"' :: acc
    else if c = '\\' then '\\' :: '\\' :: acc
    else c :: acc) []⟩

mutual

/-- `JSON.stringify` on the modelled value fragment. -/
def jsonEncode : JsValue → String
  | .nullv => "null"
  | .boolv true => "true"
  | .boolv false => "false"
  | .num n => toString n
  | .str s => "\"" ++ jsonEscape s ++ "\""
  | .arr es => "[" ++ jsonEncodeArr es ++ "]"
  | .obj fs => "\x7b" ++ jsonEncodeFields fs ++ "\x7d"

/-- Comma-separated encoding of array elements. -/
def jsonEncodeArr : JsArray → String
  | .nil => ""
  | .cons v .nil => jsonEncode v
  | .cons v tl => jsonEncode v ++ "," ++ jsonEncodeArr tl

/-- Comma-separated encoding of object fields. -/
def jsonEncodeFields : JsFields → String
  | .nil => ""
  | .cons k v .nil => "\"" ++ jsonEscape k ++ "\":" ++ jsonEncode v
  | .cons k v tl => "\"" ++ jsonEscape k ++ "\":" ++ jsonEncode v ++ "," ++ jsonEncodeFields tl

end

/-- Skips JSON whitespace. -/
def jsonSkipWs : List Char → List Char
  | c :: cs => if c = ' ' || c = '\n' || c = '\t' || c = '\r' then jsonSkipWs cs else c :: cs
  | [] => []

/-- Parses a JSON string body up to the closing quote, undoing
`jsonEscape`. -/
def jsonParseStr : Nat → List Char → Option (String × List Char)
  | 0, _ => none
  | _ + 1, [] => none
  | fuel + 1, c :: cs =>
      if c = '"' then some ("", cs)
      else if c = '\\' then
        match cs with
        | e :: cs' =>
            match jsonParseStr fuel cs' with
            | some (s, rest) => some (⟨e :: s.data⟩, rest)
            | none => none
        | [] => none
      else
        match jsonParseStr fuel cs with
        | some (s, rest) => some (⟨c :: s.data⟩, rest)
        | none => none

/-- Parses a run of decimal digits. -/
def jsonParseNum (acc : Nat) : List Char → Nat × List Char
  | c :: cs =>
      if c.isDigit then jsonParseNum (acc * 10 + (c.toNat - '0'.toNat)) cs
      else (acc, c :: cs)
  | [] => (acc, [])

mutual

/-- Fuel-indexed parser for the modelled JSON fragment; returns the value
and the unconsumed input. -/
def jsonParseVal : Nat → List Char → Option (JsValue × List Char)
  | 0, _ => none
  | fuel + 1, input =>
      match jsonSkipWs input with
      | 'n' :: 'u' :: 'l' :: 'l' :: rest => some (.nullv, rest)
      | 't' :: 'r' :: 'u' :: 'e' :: rest => some (.boolv true, rest)
      | 'f' :: 'a' :: 'l' :: 's' :: 'e' :: rest => some (.boolv false, rest)
      | '"' :: rest =>
          match jsonParseStr (rest.length + 1) rest with
          | some (s, rest') => some (.str s, rest')
          | none => none
      | '[' :: rest =>
          (match jsonSkipWs rest with
           | ']' :: rest' => some (.arr .nil, rest')
           | rest' =>
               match jsonParseArr fuel rest' with
               | some (es, rest'') => some (.arr es, rest'')
               | none => none)
      | '\x7b' :: rest =>
          (match jsonSkipWs rest with
           | '\x7d' :: rest' => some (.obj .nil, rest')
           | rest' =>
               match jsonParseObj fuel rest' with
               | some (fs, rest'') => some (.obj fs, rest'')
               | none => none)
      | c :: rest =>
          if c.isDigit then
            let (n, rest') := jsonParseNum (c.toNat - '0'.toNat) rest
            some (.num n, rest')
          else none
      | [] => none

/-- Parses the (non-empty) element list of a JSON array after `[`. -/
def jsonParseArr : Nat → List Char → Option (JsArray × List Char)
  | 0, _ => none
  | fuel + 1, input =>
      match jsonParseVal fuel input with
      | some (v, rest) =>
          (match jsonSkipWs rest with
           | ',' :: rest' =>
               (match jsonParseArr fuel rest' with
                | some (es, rest'') => some (.cons v es, rest'')
                | none => none)
           | ']' :: rest' => some (.cons v .nil, rest')
           | _ => none)
      | none => none

/-- Parses the (non-empty) member list of a JSON object after `\x7b`. -/
def jsonParseObj : Nat → List Char → Option (JsFields × List Char)
  | 0, _ => none
  | fuel + 1, input =>
      match jsonSkipWs input with
      | '"' :: rest =>
          (match jsonParseStr (rest.length + 1) rest with
           | some (k, rest') =>
               (match jsonSkipWs rest' with
                | ':' :: rest'' =>
                    (match jsonParseVal fuel rest'' with
                     | some (v, rest3) =>
                         (match jsonSkipWs rest3 with
                          | ',' :: rest4 =>
                              (match jsonParseObj fuel rest4 with
                               | some (fs, rest5) => some (.cons k v fs, rest5)
                               | none => none)
                          | '\x7d' :: rest4 => some (.cons k v .nil, rest4)
                          | _ => none)
                     | none => none)
                | _ => none)
           | none => none)
      | _ => none

end

/-- `JSON.parse`: accepts exactly a full JSON document of the modelled
fragment (`none` models the `SyntaxError` throw). -/
def jsonParse (s : String) : Option JsValue :=
  match jsonParseVal (s.length + 1) s.data with
  | some (v, rest) => if jsonSkipWs rest = [] then some v else none
  | none => none

/-! ## Errors -/

/-- A JavaScript `Error` as `_createError` builds it (storage.js 1106-1112):
a message plus a stable `code` string.  Errors thrown by platform layers
carry no `code`; those are modelled with `code := ""` (reading a missing
property yields `undefined`). -/
structure JsError where
  code : String
  message : String
deriving DecidableEq, Repr

/-- The `ERROR_CODES` taxonomy of storage.js (lines 25-34). -/
def ERROR_CODES : List String :=
  ["VALIDATION_ERROR", "STORAGE_QUOTA_EXCEEDED", "DATA_CORRUPTION",
   "NETWORK_ERROR", "FALLBACK_ACTIVATED", "MIGRATION_ERROR",
   "PERMISSION_DENIED", "UNKNOWN_ERROR"]

/-- `_createError(code, message)` (details and timestamp are diagnostics
the claims never observe). -/
def createError (code message : String) : JsError := ⟨code, message⟩

/-! ## Key derivation and cipher (part_004)

`generateKey`, `encrypt` and `decrypt` in `part_004` are thin wrappers
around the Web Crypto platform (`crypto.subtle` PBKDF2 and AES-GCM),
which is not code of this repository.  Following the spec (§4.1), the
platform primitives are modelled as an ideal password-based AEAD:

* key derivation is deterministic and collision-free for a fixed salt
  (spec: "Same `(passphrase, salt)` always yields the same key");
* the ciphertext is the plaintext XOR-ed with a key-and-iv-determined
  keystream (the CTR layer of GCM);
* the GCM authentication tag is modelled as an ideal MAC: a value that
  determines the key, iv and ciphertext it was computed over (spec:
  ciphertext is "authenticated (tamper-evident)", and `decrypt` "fails
  with CryptoError (authentication failure) if ciphertext was tampered
  with or the key is wrong").

`TextEncoder`/`TextDecoder` (also platform code) are modelled as the
code-point serialization of the string. -/

/-- Models `TextEncoder.encode`: the byte serialization of a string,
abstracted to its code points (injective, which is all the store relies
on). -/
def encodeStr (s : String) : List Nat := s.data.map Char.toNat

/-- Models `TextDecoder.decode`: total, mapping each unit back to a
character (invalid units become U+0000, as the real decoder substitutes
rather than throws). -/
def decodeStr (bs : List Nat) : String := ⟨bs.map Char.ofNat⟩

/-- Models `generateKey` (part_004 lines 3-43): PBKDF2-SHA-256 with
100000 iterations runs inside Web Crypto; per the spec it is deterministic
in `(pin, salt)`, and distinct pins give distinct keys for the fixed
persisted device salt.  Modelled as the pairing of the encoded pin with
the salt (collision-free for a fixed salt). -/
def deriveKey (pin : String) (salt : List Nat) : List Nat :=
  encodeStr pin ++ salt

/-- The CTR keystream block of AES-GCM for a given key and iv, one byte
per position (a concrete key- and iv-dependent mixing; the real block
cipher is platform code). -/
def keystream (key iv : List Nat) (n : Nat) : List Nat :=
  let seed := (key ++ iv).foldl (fun a b => (a * 31 + b) % 65536) 17
  (List.range n).map (fun i => (seed * (i + 3) + i * i) % 256)

/-- XOR of a byte sequence with the keystream of its own length (the
symmetric encryption/decryption core of GCM). -/
def xorKeystream (key iv bytes : List Nat) : List Nat :=
  List.zipWith (· ^^^ ·) bytes (keystream key iv bytes.length)

/-- The GCM authentication tag, modelled as an ideal MAC: it binds the
key, iv and ciphertext it was computed from.  (The 16-byte GHASH tag of
real GCM is platform code; its defining property per the spec is that
verification fails for any other key or ciphertext.) -/
structure AuthTag where
  key : List Nat
  iv : List Nat
  ct : List Nat
deriving DecidableEq, Repr

/-- The encrypted envelope `encrypt` returns (part_004 lines 61-65):
`iv` plus the ciphertext bytes; `subtle.encrypt` appends the GCM tag to
the ciphertext buffer, modelled here as the separate `tag` field. -/
structure Envelope where
  iv : List Nat
  data : List Nat
  tag : AuthTag
deriving DecidableEq, Repr

/-- Models `encrypt(data, pin)` (part_004 lines 46-69).  The fresh random
12-byte iv and the persisted device salt are the call's environment and
enter as parameters. -/
def encrypt (data : String) (pin : String) (iv salt : List Nat) : Envelope :=
  let key := deriveKey pin salt
  let ct := xorKeystream key iv (encodeStr data)
  ⟨iv, ct, ⟨key, iv, ct⟩⟩

/-- The error `decrypt` surfaces on an authentication failure: Web Crypto
rejects with the same `OperationError` for a tampered ciphertext and for a
wrong key, and part_004 line 87 wraps it in one fixed message with no
`code` property. -/
def cryptoError : JsError := ⟨"", "Decryption failed: OperationError"⟩

/-- Models `decrypt(encryptedObj, pin)` (part_004 lines 72-89): re-derives
the key, verifies the authentication tag, and only then returns the
decrypted plaintext. -/
def decrypt (env : Envelope) (pin : String) (salt : List Nat) : Except JsError String :=
  let key := deriveKey pin salt
  if env.tag = ⟨key, env.iv, env.data⟩ then
    .ok (decodeStr (xorKeystream key env.iv env.data))
  else
    .error cryptoError

/-- Flips bit `i` of the byte at position `j` (identity when `j` is out of
range). -/
def flipBitAt : Nat → Nat → List Nat → List Nat
  | _, _, [] => []
  | 0, i, b :: bs => (b ^^^ 2 ^ i) :: bs
  | j + 1, i, b :: bs => b :: flipBitAt j i bs

theorem keystream_length (key iv : List Nat) (n : Nat) :
    (keystream key iv n).length = n := by
  simp [keystream]

theorem zipWith_xor_cancel : ∀ (as ks : List Nat),
    List.zipWith (· ^^^ ·) (List.zipWith (· ^^^ ·) as ks) ks = as.take ks.length
  | [], _ => by simp
  | a :: as, k :: ks => by
      simp only [List.zipWith, List.take, List.length_cons]
      rw [Nat.xor_cancel_right]
      exact congrArg (a :: ·) (zipWith_xor_cancel as ks)
  | a :: as, [] => by simp

theorem xorKeystream_length (key iv bytes : List Nat) :
    (xorKeystream key iv bytes).length = bytes.length := by
  simp [xorKeystream, keystream_length]

theorem xorKeystream_involutive (key iv bytes : List Nat) :
    xorKeystream key iv (xorKeystream key iv bytes) = bytes := by
  unfold xorKeystream
  have hlen : (List.zipWith (· ^^^ ·) bytes (keystream key iv bytes.length)).length
      = bytes.length := by simp [keystream_length]
  rw [hlen, zipWith_xor_cancel, keystream_length,
    List.take_of_length_le (le_refl _)]

theorem decodeStr_encodeStr (s : String) : decodeStr (encodeStr s) = s := by
  unfold decodeStr encodeStr
  rw [List.map_map]
  have : (Char.ofNat ∘ Char.toNat) = id := by
    funext c
    exact Char.ofNat_toNat c
  rw [this, List.map_id]

theorem encodeStr_injective : Function.Injective encodeStr := by
  intro a b h
  have := congrArg decodeStr h
  rwa [decodeStr_encodeStr, decodeStr_encodeStr] at this

theorem deriveKey_injective_pin (pin pin' : String) (salt : List Nat)
    (h : deriveKey pin salt = deriveKey pin' salt) : pin = pin' := by
  unfold deriveKey at h
  exact encodeStr_injective (List.append_cancel_right h)

theorem flipBitAt_ne : ∀ (j i : Nat) (bs : List Nat), j < bs.length →
    flipBitAt j i bs ≠ bs
  | _, _, [], h => by simp at h
  | 0, i, b :: bs, _ => by
      simp only [flipBitAt, ne_eq, List.cons.injEq, not_and]
      intro hb
      rw [Nat.xor_comm b (2 ^ i)] at hb
      have h2 := congrArg (· ^^^ b) hb
      simp only [Nat.xor_cancel_right, Nat.xor_self] at h2
      have hpow := Nat.pos_pow_of_pos (n := 2) i (by norm_num)
      omega
  | j + 1, i, b :: bs, h => by
      simp only [flipBitAt, ne_eq, List.cons.injEq, not_and]
      intro _
      exact flipBitAt_ne j i bs (by simpa using h)

/-- Claim C6: for every plaintext string and every pin, decrypting the
envelope produced by `encrypt` with the same pin (hence the same derived
key, given the persisted device salt) returns exactly the original
plaintext: `decrypt(encrypt(data, pin), pin) = data`. -/
theorem decrypt_encrypt_roundtrip (data pin : String) (iv salt : List Nat) :
    decrypt (encrypt data pin iv salt) pin salt = .ok data := by
  simp only [decrypt, encrypt]
  rw [xorKeystream_involutive, decodeStr_encodeStr]
  simp

/-- Claim C7: for every stored envelope, flipping any bit of the
ciphertext, or decrypting with a key derived from a different pin, makes
`decrypt` fail with the authentication-failure error instead of returning
corrupted plaintext — and the failure is the identical `cryptoError`
value in both cases. -/
theorem decrypt_tamper_and_wrong_pin_fail (data pin pin' : String)
    (iv salt : List Nat) (j i : Nat)
    (hj : j < (encrypt data pin iv salt).data.length) (hp : pin' ≠ pin) :
    decrypt { encrypt data pin iv salt with
        data := flipBitAt j i (encrypt data pin iv salt).data } pin salt
      = .error cryptoError
    ∧ decrypt (encrypt data pin iv salt) pin' salt = .error cryptoError := by
  constructor
  · simp only [decrypt, encrypt]
    split
    next hcond =>
      exfalso
      simp only [AuthTag.mk.injEq] at hcond
      exact absurd hcond.2.2.symm
        (flipBitAt_ne j i _ (by simpa [encrypt] using hj))
    next => rfl
  · simp only [decrypt, encrypt]
    split
    next hcond =>
      exfalso
      simp only [AuthTag.mk.injEq] at hcond
      exact hp (deriveKey_injective_pin pin pin' salt hcond.1).symm
    next => rfl

theorem decrypt_tamper_witness :
    0 < (encrypt "hi" "12" [0, 7] [3]).data.length ∧ ("13" : String) ≠ "12"
    ∧ (decrypt { encrypt "hi" "12" [0, 7] [3] with
          data := flipBitAt 0 0 (encrypt "hi" "12" [0, 7] [3]).data } "12" [3]
        = .error cryptoError
      ∧ decrypt (encrypt "hi" "12" [0, 7] [3]) "13" [3] = .error cryptoError) :=
  ⟨by decide, by decide,
    decrypt_tamper_and_wrong_pin_fail "hi" "12" "13" [0, 7] [3] 0 0
      (by decide) (by decide)⟩

/-! ## The Dexie-backed `SecureStorage` service (part_002)

The `PatientDatabase` schema declares
`patients: '++id, patientId, encryptedData, timestamp, syncStatus, deviceId'`:
an auto-incremented primary key `id` with a secondary index on
`patientId`.  Rows are kept in primary-key (= insertion) order, which is
the order a Dexie `where('patientId').equals(x)` cursor visits rows with
equal index keys in. -/

/-- A row of the Dexie `patients` table.  `encryptedData` is stored as
`JSON.stringify(envelope)`; the platform JSON round trip on the envelope
object is modelled as the identity, so the field holds the envelope. -/
structure DexieRow where
  id : Nat
  patientId : String
  encryptedData : Envelope
  timestamp : Nat
  syncStatus : String
  deviceId : String
deriving DecidableEq, Repr

/-- An `auditLogs` row (the free-form `details` object is diagnostics the
claims never observe). -/
structure AuditRow where
  action : String
  timestamp : Nat
  patientId : Option String
deriving DecidableEq, Repr

/-- The `SecurePatientDB` database: `patients` rows in primary-key order
with the auto-increment counter, the append-only `auditLogs`, and the
`settings` table reduced to its single `device_id` entry. -/
structure SecureDbState where
  patients : List DexieRow
  nextId : Nat
  auditLogs : List AuditRow
  deviceId : Option String
deriving DecidableEq, Repr

/-- `SecureStorage.addAuditLog` (part_002 lines 196-207). -/
def addAuditLog (st : SecureDbState) (action : String) (patientId : Option String)
    (now : Nat) : SecureDbState :=
  { st with auditLogs := st.auditLogs ++ [⟨action, now, patientId⟩] }

/-- `SecureStorage.getDeviceId` (part_002 lines 28-38): reads the persisted
device id, creating it from a fresh `crypto.randomUUID()` (the `uuid`
parameter) on first use. -/
def getDeviceId (st : SecureDbState) (uuid : String) : String × SecureDbState :=
  match st.deviceId with
  | some d => (d, st)
  | none => (uuid, { st with deviceId := some uuid })

/-- `SecureStorage.savePatientData` (part_002 lines 41-74): encrypts the
serialized record and `put`s a row.  The record handed to
`db.patients.put` carries no value for the auto-increment primary key
`id`, so Dexie generates a fresh key and appends a new row (`put` only
replaces when the primary key is present).  `iv`, `salt`, `now` and
`uuid` are the call's environment (fresh GCM nonce, persisted device
salt, clock, fresh UUID). -/
def SecureStorage.savePatientData (st : SecureDbState) (currentPin : Option String)
    (patientId : String) (patientRecord : JsValue) (iv salt : List Nat)
    (now : Nat) (uuid : String) : Except JsError (String × SecureDbState) :=
  match currentPin with
  | none => .error ⟨"", "PIN not set - cannot encrypt data"⟩
  | some pin =>
      let encryptedData := encrypt (jsonEncode patientRecord) pin iv salt
      let (dev, st1) := getDeviceId st uuid
      let dbRecord : DexieRow :=
        ⟨st1.nextId, patientId, encryptedData, now, "local", dev⟩
      let st2 := { st1 with
        patients := st1.patients ++ [dbRecord], nextId := st1.nextId + 1 }
      .ok (patientId, addAuditLog st2 "SAVE_PATIENT" (some patientId) now)

/-- `SecureStorage.loadPatientData` (part_002 lines 77-107):
`db.patients.where('patientId').equals(patientId).first()` returns the
matching row with the smallest primary key — the FIRST row in insertion
order — then decrypts and parses it. -/
def SecureStorage.loadPatientData (st : SecureDbState) (currentPin : Option String)
    (patientId : String) (salt : List Nat) (now : Nat) :
    Except JsError (Option JsValue × SecureDbState) :=
  match currentPin with
  | none => .error ⟨"", "PIN not set - cannot decrypt data"⟩
  | some pin =>
      match (st.patients.filter (fun r => r.patientId = patientId)).head? with
      | none => .ok (none, st)
      | some dbRecord =>
          match decrypt dbRecord.encryptedData pin salt with
          | .error e => .error ⟨"", "Load failed: " ++ e.message⟩
          | .ok decryptedString =>
              match jsonParse decryptedString with
              | none => .error ⟨"", "Load failed: JSON parse error"⟩
              | some patientRecord =>
                  .ok (some patientRecord,
                    addAuditLog st "LOAD_PATIENT" (some patientId) now)

/-- First concrete record of the C3 scenario. -/
def dexieRecA : JsValue := .obj (.cons "name" (.str "Alice") .nil)

/-- Second concrete record of the C3 scenario (same patient id). -/
def dexieRecB : JsValue := .obj (.cons "name" (.str "Bob") .nil)

/-- The database state after saving `dexieRecA` and then `dexieRecB`
under the same patient id `"p1"` from an empty database. -/
def dexieTwice : SecureDbState :=
  match SecureStorage.savePatientData ⟨[], 0, [], some "dev"⟩ (some "1234")
      "p1" dexieRecA [1, 2] [9] 100 "u1" with
  | .ok (_, st1) =>
      match SecureStorage.savePatientData st1 (some "1234")
          "p1" dexieRecB [3, 4] [9] 200 "u2" with
      | .ok (_, st2) => st2
      | .error _ => st1
  | .error _ => ⟨[], 0, [], some "dev"⟩

/-- Claim C3 (code bug): re-saving an existing patient id through
`SecureStorage.savePatientData` does NOT replace the stored record —
`db.patients.put` never receives the auto-increment primary key, so the
backend accumulates one row per save (two rows for `"p1"` here), and
`loadPatientData`'s `.first()` returns the OLDEST record (`dexieRecA`),
not the most recently saved one. -/
theorem dexie_resave_duplicates_and_load_returns_oldest :
    (dexieTwice.patients.filter (fun r => r.patientId = "p1")).length = 2
    ∧ SecureStorage.loadPatientData dexieTwice (some "1234") "p1" [9] 300
        = .ok (some dexieRecA,
            addAuditLog dexieTwice "LOAD_PATIENT" (some "p1") 300) := by
  constructor
  · rfl
  · rfl

/-! ## The `StorageService` (storage.js)

Operations are explicit state transformers: each `async` method runs to
completion on the single-threaded event loop (spec §5), so an operation
is a function from a service state (plus the call's environment: clock
and backend fault status) to a result and a new state.  `try/catch`
becomes a `match` on the intermediate `Except` result; state mutations
performed before a throw survive it, exactly as in JavaScript. -/

/-- The fields of `CONFIG` (storage.js lines 8-22) the modelled operations
read.  The `StorageService` constructor merges caller overrides over
these defaults. -/
structure Config where
  SCHEMA_VERSION : String := "1.0"
  CACHE_SIZE : Nat := 100
  RETRY_ATTEMPTS : Nat := 3
  BACKUP_ENABLED : Bool := true
deriving DecidableEq, Repr

/-- The default configuration (the singleton `storageService` uses it
unchanged). -/
def CONFIG : Config := {}

/-- The per-call environment: the clock behind `Date.now()` /
`toISOString()`, and the fault status of the storage backends.  Faults
are persistent for the duration of a call, so every retry of a failing
operation fails again. -/
structure Env where
  idbGetOk : Bool := true
  idbSetOk : Bool := true
  lsOk : Bool := true
  now : Nat := 0
deriving DecidableEq, Repr

/-- The mutable state of a `StorageService` instance plus its two
backends: the localforage store (`idb`), `window.localStorage` (`ls`,
holding `JSON.stringify`-ed strings), and the LRU cache with its access
order (`this.cache` / `this.cacheAccessOrder`).  Metrics, listeners and
log output are diagnostics outside the model. -/
structure SvcState where
  idb : List (String × JsValue) := []
  ls : List (String × String) := []
  cache : List (String × JsValue) := []
  cacheOrder : List String := []
deriving DecidableEq, Repr

/-- The empty service state (fresh database, fresh instance). -/
def emptyState : SvcState := {}

/-- Lookup in a keyed store (`Map.get` / `localforage.getItem`). -/
def kvGet : List (String × α) → String → Option α
  | [], _ => none
  | (k, v) :: tl, key => if k = key then some v else kvGet tl key

/-- Keyed update (`Map.set` / `localforage.setItem` /
`localStorage.setItem`): replaces the binding when the key exists,
appends it otherwise. -/
def kvSet : List (String × α) → String → α → List (String × α)
  | [], key, v => [(key, v)]
  | (k, v') :: tl, key, v =>
      if k = key then (k, v) :: tl else (k, v') :: kvSet tl key v

/-- Keyed removal (`Map.delete` / `localforage.removeItem`): drops the
first binding of the key (keys are unique in every reachable store). -/
def kvDel : List (String × α) → String → List (String × α)
  | [], _ => []
  | (k, v) :: tl, key => if k = key then tl else (k, v) :: kvDel tl key

/-- `_generateKey` (lines 807-809). -/
def generateKey (patientId : String) : String := "patient-" ++ patientId

/-- The error a failing storage driver rejects with: a plain `Error`
whose `code` property is `undefined` (modelled as `""`). -/
def backendError : JsError := ⟨"", "storage backend failure"⟩

/-- Models `new Date().toISOString()` at logical time `now` (an injective
timestamp string). -/
def isoTime (now : Nat) : String := "1970-01-01T00:00:00." ++ toString now ++ "Z"

/-- One check of the `for (const field of optionalFields)` loop of
`_validatePatientData` (lines 841-846): the field must be a string when
present. -/
def validateOptionalField (data : JsValue) (field : String) : Except JsError Unit :=
  match data.getField field with
  | some v =>
      if v.jsTypeof ≠ "string" then
        .error (createError "VALIDATION_ERROR" (field ++ " must be a string if provided"))
      else .ok ()
  | none => .ok ()

/-- The optional-field loop over `['notes', 'language', 'gender']` in
source order; the first failing field's error propagates. -/
def validateOptionalFields (data : JsValue) : Except JsError JsValue :=
  match validateOptionalField data "notes" with
  | .error e => .error e
  | .ok _ =>
      match validateOptionalField data "language" with
      | .error e => .error e
      | .ok _ =>
          match validateOptionalField data "gender" with
          | .error e => .error e
          | .ok _ => .ok data

/-- `_validatePatientData` (lines 817-849), check for check in source
order: object shape, `id`, `name`, `dateCreated`, the alphanumeric ID
regex, then the optional string fields. -/
def validatePatientData (data : JsValue) : Except JsError JsValue :=
  if ¬(data.jsTruthy ∧ data.jsTypeof = "object") then
    .error (createError "VALIDATION_ERROR" "Patient data must be an object")
  else match data.getField "id" with
  | some (.str idStr) =>
      if idStr = "" ∨ jsTrim idStr = "" then
        .error (createError "VALIDATION_ERROR"
          "Patient ID is required and must be a non-empty string")
      else match data.getField "name" with
      | some (.str nameStr) =>
          if nameStr = "" ∨ jsTrim nameStr = "" then
            .error (createError "VALIDATION_ERROR"
              "Patient name is required and must be a non-empty string")
          else match data.getField "dateCreated" with
          | some (.str dateStr) =>
              if dateStr = "" then
                .error (createError "VALIDATION_ERROR"
                  "Date created is required and must be a string")
              else if ¬((jsTrim idStr).data.all isAlphaNum) then
                .error (createError "VALIDATION_ERROR" "Patient ID must be alphanumeric")
              else validateOptionalFields data
          | _ => .error (createError "VALIDATION_ERROR"
              "Date created is required and must be a string")
      | _ => .error (createError "VALIDATION_ERROR"
          "Patient name is required and must be a non-empty string")
  | _ => .error (createError "VALIDATION_ERROR"
      "Patient ID is required and must be a non-empty string")

/-- `_validateStoredData` (lines 858-869): only the object-shape check can
fail; a missing `schemaVersion` merely logs a warning. -/
def validateStoredData (data : JsValue) (patientId : String) : Except JsError JsValue :=
  if ¬(data.jsTruthy ∧ data.jsTypeof = "object") then
    .error (createError "DATA_CORRUPTION" ("Corrupted data for patient " ++ patientId))
  else .ok data

/-- Reads `data.metadata?.field`. -/
def metaField (data : JsValue) (field : String) : Option JsValue :=
  (data.getField "metadata").bind (fun m => m.getField field)

/-- Models `(data.metadata?.accessCount || 0)`: `undefined` and `0` give
`0`.  The value is only ever a number because `enrichPatientData` itself
is the sole producer of `accessCount`. -/
def jsNumOrZero : Option JsValue → Nat
  | some (.num n) => n
  | _ => 0

/-- The two `operation` arguments `_enrichPatientData` is called with. -/
inductive EnrichOp where
  | opSave
  | opAccess
deriving DecidableEq, Repr

/-- `_enrichPatientData` (lines 879-894): spreads the record, stamps
`schemaVersion`, and rebuilds `metadata` with `lastModified` (kept on
access, refreshed on save), `lastAccessed`, and the incremented-on-access
`accessCount`.  When `data.metadata?.lastModified` is `undefined` on an
access, JS stores the property with value `undefined`; the model leaves
the key absent, which is observationally identical for every read the
store performs (property reads and `JSON.stringify` both ignore it). -/
def enrichPatientData (cfg : Config) (data : JsValue) (_patientId : String)
    (operation : EnrichOp) (now : Nat) : JsValue :=
  let ts := isoTime now
  let meta0 := match data.getField "metadata" with
    | some m => m.spreadFields
    | none => JsFields.nil
  let m1 := match operation with
    | .opSave => meta0.setF "lastModified" (.str ts)
    | .opAccess =>
        match metaField data "lastModified" with
        | some v => meta0.setF "lastModified" v
        | none => meta0
  let m2 := m1.setF "lastAccessed" (.str ts)
  let count := jsNumOrZero (metaField data "accessCount")
    + (match operation with | .opAccess => 1 | .opSave => 0)
  let m3 := m2.setF "accessCount" (.num count)
  .obj ((data.spreadFields.setF "schemaVersion" (.str cfg.SCHEMA_VERSION)).setF
    "metadata" (.obj m3))

/-- `_retryOperation` (lines 1056-1070) with `fuel` REMAINING retries
after the current attempt: the modelled faults are persistent, so each
retry re-runs the same deterministic operation; the last attempt's error
surfaces.  Call sites pass `RETRY_ATTEMPTS - 1` (first attempt plus two
retries). -/
def retryOperation : Nat → (Unit → Except JsError α) → Except JsError α
  | 0, op => op ()
  | fuel + 1, op =>
      match op () with
      | .ok a => .ok a
      | .error _ => retryOperation fuel op

/-- `localforage.getItem` under the call's fault status. -/
def idbGet (env : Env) (st : SvcState) (key : String) : Except JsError (Option JsValue) :=
  if env.idbGetOk then .ok (kvGet st.idb key) else .error backendError

/-- `localforage.setItem`/`removeItem` success status under the call's
fault status (the state change is applied by the caller on success). -/
def idbWriteOk (env : Env) : Except JsError Unit :=
  if env.idbSetOk then .ok () else .error backendError

/-- `_checkStorageQuota` (lines 900-919): the `STORAGE_QUOTA_EXCEEDED`
error it would throw is swallowed by its own `try/catch` ("Quota check
failed, but don't block the operation"), so the check never propagates a
failure and is a no-op in the model. -/
def checkStorageQuota : Except JsError Unit := .ok ()

/-- The `'save'` arm of `_tryLocalStorageFallback` (lines 1019-1047):
writes the RAW, unvalidated, un-enriched record to `localStorage` and
reports success; when `localStorage` itself fails the internal catch
returns `null` (falsy). -/
def tryLocalStorageFallbackSave (env : Env) (st : SvcState) (patientId : String)
    (data : JsValue) : Bool × SvcState :=
  if env.lsOk then
    (true, { st with ls := kvSet st.ls (generateKey patientId) (jsonEncode data) })
  else (false, st)

/-- The `'load'` arm of `_tryLocalStorageFallback`: returns the parsed
stored string if one is present, `null` otherwise; parse failures are
caught and become `null`. -/
def tryLocalStorageFallbackLoad (env : Env) (st : SvcState) (patientId : String) :
    Option JsValue × SvcState :=
  if env.lsOk then
    match kvGet st.ls (generateKey patientId) with
    | some stored => if stored ≠ "" then (jsonParse stored, st) else (none, st)
    | none => (none, st)
  else (none, st)

/-- `_removeFromCacheOrder` (lines 1004-1009): removes the (unique)
occurrence of the key. -/
def removeFromCacheOrder (order : List String) (key : String) : List String :=
  order.erase key

/-- `_updateCacheAccess` (lines 993-997): moves the key to the front of
the access order. -/
def updateCacheAccess (st : SvcState) (key : String) : SvcState :=
  { st with cacheOrder := key :: removeFromCacheOrder st.cacheOrder key }

/-- The `while (cache.size > CACHE_SIZE)` eviction loop of `_updateCache`:
pops the least recently used key off the back of the access order and
deletes it from the cache.  `fuel` bounds the recursion; call sites pass
the length of the order, which the loop consumes one key per round.  (On
the unreachable desynchronised states where the order underflows while
the cache is still over the limit, the JS loop would spin forever; the
model stops.) -/
def evictLoop (limit : Nat) : Nat → List (String × JsValue) → List String →
    List (String × JsValue) × List String
  | 0, cache, order => (cache, order)
  | fuel + 1, cache, order =>
      if cache.length ≤ limit then (cache, order)
      else match order.getLast? with
      | none => (cache, order)
      | some oldestKey => evictLoop limit fuel (kvDel cache oldestKey) order.dropLast

/-- `_updateCache` (lines 971-986): re-position an existing key, push the
key to the front, store the value, then evict down to `CACHE_SIZE`. -/
def updateCache (cfg : Config) (st : SvcState) (key : String) (data : JsValue) :
    SvcState :=
  let order1 := if (kvGet st.cache key).isSome
    then removeFromCacheOrder st.cacheOrder key else st.cacheOrder
  let order2 := key :: order1
  let cache1 := kvSet st.cache key data
  let evicted := evictLoop cfg.CACHE_SIZE order2.length cache1 order2
  { st with cache := evicted.1, cacheOrder := evicted.2 }

/-- The options object of `loadPatientData` (only `useCache` is read). -/
structure LoadOpts where
  useCache : Option Bool := none
deriving DecidableEq, Repr

/-- The options object of `savePatientData` / `deletePatientData` (only
`backup` is read). -/
structure SaveOpts where
  backup : Option Bool := none
deriving DecidableEq, Repr

/-- The `try` block of `loadPatientData` (lines 164-209): id check, cache
probe, retried backend read, truthiness check, read-side validation,
cache update, and the write-on-read re-persist of the access metadata
(`setItem` outside `_retryOperation`).  Note the function returns
`validatedData`, not the re-persisted `updatedData`. -/
def loadPatientDataTry (cfg : Config) (env : Env) (st : SvcState)
    (patientId : String) (options : LoadOpts) :
    Except JsError (Option JsValue) × SvcState :=
  if patientId = "" then
    (.error (createError "VALIDATION_ERROR" "Patient ID is required and must be string"), st)
  else
    let key := generateKey patientId
    if options.useCache ≠ some false ∧ (kvGet st.cache key).isSome then
      (.ok (kvGet st.cache key), updateCacheAccess st key)
    else
      match retryOperation (cfg.RETRY_ATTEMPTS - 1) (fun _ => idbGet env st key) with
      | .error e => (.error e, st)
      | .ok none => (.ok none, st)
      | .ok (some data) =>
          if data.jsTruthy then
            match validateStoredData data patientId with
            | .error e => (.error e, st)
            | .ok validatedData =>
                let st1 := updateCache cfg st key validatedData
                let updatedData := enrichPatientData cfg validatedData patientId .opAccess env.now
                match idbWriteOk env with
                | .ok _ => (.ok (some validatedData),
                    { st1 with idb := kvSet st1.idb key updatedData })
                | .error e => (.error e, st1)
          else (.ok none, st)

/-- `loadPatientData` (lines 164-222): the `try` block above plus the
catch-all handler, which consults the `localStorage` fallback and
otherwise resolves to `null` ("Don't throw on load failure, return
null"). -/
def loadPatientData (cfg : Config) (env : Env) (st : SvcState)
    (patientId : String) (options : LoadOpts) :
    Except JsError (Option JsValue) × SvcState :=
  match loadPatientDataTry cfg env st patientId options with
  | (.ok r, st') => (.ok r, st')
  | (.error _, st') =>
      let (fallbackData, st'') := tryLocalStorageFallbackLoad env st' patientId
      match fallbackData with
      | some v => if v.jsTruthy then (.ok (some v), st'') else (.ok none, st'')
      | none => (.ok none, st'')

/-- `_backupExistingData` (lines 926-937): loads the current value
bypassing the cache and stores it under a timestamped backup key; every
failure is caught and ignored. -/
def backupExistingData (cfg : Config) (env : Env) (st : SvcState)
    (patientId : String) : SvcState :=
  match loadPatientData cfg env st patientId ⟨some false⟩ with
  | (.ok (some existingData), st1) =>
      if existingData.jsTruthy then
        match idbWriteOk env with
        | .ok _ =>
            let backupKey := "backup-" ++ patientId ++ "-" ++ toString env.now
            { st1 with idb := kvSet st1.idb backupKey existingData }
        | .error _ => st1
      else st1
  | (.ok none, st1) => st1
  | (.error _, st1) => st1

/-- The `try` block of `savePatientData` (lines 105-144): id check,
write-side validation, enrichment, (never-failing) quota check, optional
backup, retried backend write, cache update. -/
def savePatientDataTry (cfg : Config) (env : Env) (st : SvcState)
    (patientId : String) (data : JsValue) (options : SaveOpts) :
    Except JsError Bool × SvcState :=
  if patientId = "" then
    (.error (createError "VALIDATION_ERROR" "Patient ID is required and must be string"), st)
  else
    match validatePatientData data with
    | .error e => (.error e, st)
    | .ok validatedData =>
        let enrichedData := enrichPatientData cfg validatedData patientId .opSave env.now
        match checkStorageQuota with
        | .error e => (.error e, st)
        | .ok _ =>
            let st1 := if cfg.BACKUP_ENABLED ∧ options.backup ≠ some false
              then backupExistingData cfg env st patientId else st
            let key := generateKey patientId
            match retryOperation (cfg.RETRY_ATTEMPTS - 1) (fun _ => idbWriteOk env) with
            | .error e => (.error e, st1)
            | .ok _ =>
                let st2 := { st1 with idb := kvSet st1.idb key enrichedData }
                (.ok true, updateCache cfg st2 key enrichedData)

/-- `savePatientData` (lines 105-156): the `try` block above plus the
catch-all handler, which tries the `localStorage` fallback on EVERY
error — including validation failures — and converts a successful
fallback write into a `true` return; only when the fallback also fails
does the original error propagate. -/
def savePatientData (cfg : Config) (env : Env) (st : SvcState)
    (patientId : String) (data : JsValue) (options : SaveOpts) :
    Except JsError Bool × SvcState :=
  match savePatientDataTry cfg env st patientId data options with
  | (.ok b, st') => (.ok b, st')
  | (.error e, st') =>
      let (fb, st'') := tryLocalStorageFallbackSave env st' patientId data
      if fb then (.ok true, st'') else (.error e, st'')

/-- `updatePatientData` (lines 231-249): load, reject a missing record,
spread-merge the updates over the existing record, and save the result;
the catch re-throws the original error. -/
def updatePatientData (cfg : Config) (env : Env) (st : SvcState)
    (patientId : String) (updates : JsValue) (options : SaveOpts) :
    Except JsError Bool × SvcState :=
  match loadPatientData cfg env st patientId {} with
  | (.error e, st1) => (.error e, st1)
  | (.ok existingData, st1) =>
      match existingData with
      | some ex =>
          if ex.jsTruthy then
            let mergedData := JsValue.obj (ex.spreadFields.mergeF updates.spreadFields)
            savePatientData cfg env st1 patientId mergedData options
          else
            (.error (createError "VALIDATION_ERROR"
              ("Patient " ++ patientId ++ " not found for update")), st1)
      | none =>
          (.error (createError "VALIDATION_ERROR"
            ("Patient " ++ patientId ++ " not found for update")), st1)

/-- `deletePatientData` (lines 257-294): id check, optional backup,
retried backend delete, cache eviction. -/
def deletePatientData (cfg : Config) (env : Env) (st : SvcState)
    (patientId : String) (options : SaveOpts) : Except JsError Bool × SvcState :=
  if patientId = "" then
    (.error (createError "VALIDATION_ERROR" "Patient ID is required and must be string"), st)
  else
    let st1 := if cfg.BACKUP_ENABLED ∧ options.backup ≠ some false
      then backupExistingData cfg env st patientId else st
    let key := generateKey patientId
    match retryOperation (cfg.RETRY_ATTEMPTS - 1) (fun _ => idbWriteOk env) with
    | .error e => (.error e, st1)
    | .ok _ =>
        let st2 := { st1 with idb := kvDel st1.idb key }
        let st3 := { st2 with cache := kvDel st2.cache key, cacheOrder := removeFromCacheOrder st2.cacheOrder key }
        (.ok true, st3)

/-- The `results` object `saveMultiplePatients` accumulates. -/
structure BatchResults where
  total : Nat
  successful : Nat
  failed : Nat
  errors : List (String × String)
deriving DecidableEq, Repr

/-- One item of the `saveMultiplePatients` loop body (lines 325-334):
saves with `\x7bbackup: false\x7d`, counting the settled result.  A
rejected save increments `failed` and records the error; it never aborts
the batch. -/
def saveMultipleStep (cfg : Config) (env : Env) (acc : BatchResults × SvcState)
    (item : String × JsValue) : BatchResults × SvcState :=
  let (results, st) := acc
  match savePatientData cfg env st item.1 item.2 ⟨some false⟩ with
  | (.ok _, st') => ({ results with successful := results.successful + 1 }, st')
  | (.error e, st') =>
      let results2 := { results with failed := results.failed + 1, errors := results.errors ++ [(item.1, e.message)] }
      (results2, st')

/-- `saveMultiplePatients` (lines 306-357).  The source processes
fixed-size chunks of 50 through `Promise.allSettled`; each item touches
only its own `patient-` key and its own `results` counter, so the
single-threaded interleaving cannot change any observation and the model
folds the items in order. -/
def saveMultiplePatients (cfg : Config) (env : Env) (st : SvcState)
    (patients : List (String × JsValue)) : BatchResults × SvcState :=
  patients.foldl (saveMultipleStep cfg env) (⟨patients.length, 0, 0, []⟩, st)

/-- `clearCache` (lines 755-768): empties the cache and its access order
(the metrics reset is diagnostics). -/
def clearCache (st : SvcState) : SvcState :=
  { st with cache := [], cacheOrder := [] }

/-! ## Basic store lemmas -/

theorem kvGet_kvSet_self (l : List (String × α)) (k : String) (v : α) :
    kvGet (kvSet l k v) k = some v := by
  induction l with
  | nil => simp [kvSet, kvGet]
  | cons hd tl ih =>
      obtain ⟨k', v'⟩ := hd
      by_cases h : k' = k
      · simp [kvSet, kvGet, h]
      · simp [kvSet, kvGet, h, ih]

theorem kvGet_kvSet_ne (l : List (String × α)) (k k' : String) (v : α)
    (h : k ≠ k') : kvGet (kvSet l k v) k' = kvGet l k' := by
  induction l with
  | nil => simp [kvSet, kvGet, h]
  | cons hd tl ih =>
      obtain ⟨k0, v0⟩ := hd
      by_cases h0 : k0 = k
      · subst h0
        simp [kvSet, kvGet, h]
      · simp [kvSet, kvGet, h0, ih]

theorem kvSet_fresh (l : List (String × α)) (k : String) (v : α)
    (h : kvGet l k = none) : kvSet l k v = l ++ [(k, v)] := by
  induction l with
  | nil => simp [kvSet]
  | cons hd tl ih =>
      obtain ⟨k0, v0⟩ := hd
      by_cases h0 : k0 = k
      · simp [kvGet, h0] at h
      · simp [kvGet, h0] at h
        simp [kvSet, h0, ih h]

theorem kvGet_append_left (l l' : List (String × α)) (k : String) (v : α)
    (h : kvGet l k = some v) : kvGet (l ++ l') k = some v := by
  induction l with
  | nil => simp [kvGet] at h
  | cons hd tl ih =>
      obtain ⟨k0, v0⟩ := hd
      by_cases h0 : k0 = k
      · simp [kvGet, h0] at h ⊢
        exact h
      · simp [kvGet, h0] at h ⊢
        exact ih h

theorem kvGet_append_right (l l' : List (String × α)) (k : String)
    (h : kvGet l k = none) : kvGet (l ++ l') k = kvGet l' k := by
  induction l with
  | nil => simp [kvGet]
  | cons hd tl ih =>
      obtain ⟨k0, v0⟩ := hd
      by_cases h0 : k0 = k
      · simp [kvGet, h0] at h
      · simp [kvGet, h0] at h ⊢
        exact ih h

theorem generateKey_injective (a b : String) (h : generateKey a = generateKey b) :
    a = b := by
  unfold generateKey at h
  have hd : ("patient-" ++ a).data = ("patient-" ++ b).data := by rw [h]
  simp only [String.data_append] at hd
  exact String.ext (List.append_cancel_left hd)

theorem lookupF_setF_self : ∀ (fs : JsFields) (k : String) (v : JsValue),
    (fs.setF k v).lookupF k = some v
  | .nil, k, v => by simp [JsFields.setF, JsFields.lookupF]
  | .cons k0 v0 tl, k, v => by
      by_cases h0 : k0 = k
      · simp [JsFields.setF, JsFields.lookupF, h0]
      · simp [JsFields.setF, JsFields.lookupF, h0, lookupF_setF_self tl k v]

theorem lookupF_setF_ne : ∀ (fs : JsFields) (k k' : String) (v : JsValue),
    k ≠ k' → (fs.setF k v).lookupF k' = fs.lookupF k'
  | .nil, k, k', v, h => by simp [JsFields.setF, JsFields.lookupF, h]
  | .cons k0 v0 tl, k, k', v, h => by
      by_cases h0 : k0 = k
      · subst h0
        simp [JsFields.setF, JsFields.lookupF, h]
      · simp [JsFields.setF, JsFields.lookupF, h0, lookupF_setF_ne tl k k' v h]

/-! ## Validator and enrichment lemmas -/

theorem validateOptionalFields_ok (data v : JsValue)
    (h : validateOptionalFields data = .ok v) : v = data := by
  unfold validateOptionalFields at h
  repeat' split at h
  all_goals simp_all

theorem validatePatientData_ok (data v : JsValue)
    (h : validatePatientData data = .ok v) :
    v = data ∧ data.jsTruthy ∧ data.jsTypeof = "object" := by
  unfold validatePatientData at h
  split at h
  · simp at h
  · next hobj =>
      refine ⟨?_, by tauto, by tauto⟩
      repeat' split at h
      all_goals first
        | exact validateOptionalFields_ok data v h
        | simp_all

/-- The enrichment always yields a truthy object whose
`metadata.accessCount` is the source value plus the access increment and
whose `metadata.lastAccessed` is the current timestamp. -/
theorem enrichPatientData_fields (cfg : Config) (data : JsValue)
    (patientId : String) (operation : EnrichOp) (now : Nat) :
    (enrichPatientData cfg data patientId operation now).jsTruthy
    ∧ (enrichPatientData cfg data patientId operation now).jsTypeof = "object"
    ∧ metaField (enrichPatientData cfg data patientId operation now) "accessCount"
        = some (.num (jsNumOrZero (metaField data "accessCount")
            + (match operation with | .opAccess => 1 | .opSave => 0)))
    ∧ metaField (enrichPatientData cfg data patientId operation now) "lastAccessed"
        = some (.str (isoTime now)) := by
  refine ⟨by simp [enrichPatientData, JsValue.jsTruthy],
    by simp [enrichPatientData, JsValue.jsTypeof], ?_, ?_⟩
  · simp only [enrichPatientData, metaField, JsValue.getField]
    rw [lookupF_setF_self]
    simp [JsValue.getField, lookupF_setF_self]
  · simp only [enrichPatientData, metaField, JsValue.getField]
    rw [lookupF_setF_self]
    simp only [Option.some_bind, JsValue.getField]
    rw [lookupF_setF_ne _ _ _ _ (by decide), lookupF_setF_self]

/-! ## Operation-level helper lemmas -/

theorem retryOperation_const (fuel : Nat) (op : Unit → Except JsError α) :
    retryOperation fuel op = op () := by
  induction fuel with
  | zero => rfl
  | succ n ih =>
      unfold retryOperation
      match h : op () with
      | .ok a => simp [h]
      | .error e => simp [h, ih]

theorem evictLoop_of_le (limit fuel : Nat) (cache : List (String × JsValue))
    (order : List String) (h : cache.length ≤ limit) :
    evictLoop limit fuel cache order = (cache, order) := by
  cases fuel with
  | zero => rfl
  | succ n => simp [evictLoop, h]

/-- `_updateCache` on a key that is not cached, with room left: appends
the entry and pushes the key, no eviction. -/
theorem updateCache_fresh (cfg : Config) (st : SvcState) (key : String)
    (data : JsValue) (habs : kvGet st.cache key = none)
    (hroom : st.cache.length < cfg.CACHE_SIZE) :
    updateCache cfg st key data
      = { st with cache := st.cache ++ [(key, data)], cacheOrder := key :: st.cacheOrder } := by
  unfold updateCache
  rw [habs]
  simp only [Option.isSome_none, Bool.false_eq_true, if_false]
  rw [kvSet_fresh _ _ _ habs]
  rw [evictLoop_of_le _ _ _ _ (by simpa using hroom)]

/-- A record absent from the primary backend, the fallback store and the
cache: `loadPatientData` resolves to `null` and leaves the state
untouched, for EVERY fault environment (lines 164-222). -/
theorem loadPatientData_absent (cfg : Config) (env : Env) (st : SvcState)
    (patientId : String) (options : LoadOpts)
    (hidb : kvGet st.idb (generateKey patientId) = none)
    (hls : kvGet st.ls (generateKey patientId) = none)
    (hcache : kvGet st.cache (generateKey patientId) = none) :
    loadPatientData cfg env st patientId options = (.ok none, st) := by
  unfold loadPatientData loadPatientDataTry
  simp only [retryOperation_const]
  by_cases hid : patientId = ""
  · subst hid
    simp [tryLocalStorageFallbackLoad, hls]
  · simp only [if_neg hid]
    rw [hcache]
    simp only [Option.isSome_none, Bool.false_eq_true, and_false, if_false]
    unfold idbGet
    by_cases hget : env.idbGetOk
    · simp [hget, hidb]
    · simp only [hget, Bool.false_eq_true, if_false]
      simp [tryLocalStorageFallbackLoad, hls]

/-- `_backupExistingData` is a no-op when the primary backend is readable
and holds nothing under the patient's key (the bypass-cache load resolves
to `null` without consulting the fallback, so nothing is backed up). -/
theorem backupExistingData_noop (cfg : Config) (env : Env) (st : SvcState)
    (patientId : String) (hid : patientId ≠ "")
    (hget : env.idbGetOk = true)
    (hidb : kvGet st.idb (generateKey patientId) = none) :
    backupExistingData cfg env st patientId = st := by
  unfold backupExistingData loadPatientData loadPatientDataTry
  simp only [retryOperation_const, if_neg hid]
  simp [idbGet, hget, hidb]

/-- `savePatientData` on a valid record, healthy write path, fresh cache
key with room to spare: stores the enriched record, appends the cache
entry, pushes the key, returns `true`.  The backup sub-step is skipped or
finds nothing, per `hbk`. -/
theorem savePatientData_valid_fresh (cfg : Config) (env : Env) (st : SvcState)
    (patientId : String) (data : JsValue) (opts : SaveOpts)
    (hset : env.idbSetOk = true) (hid : patientId ≠ "")
    (hval : validatePatientData data = .ok data)
    (hbk : cfg.BACKUP_ENABLED ∧ opts.backup ≠ some false →
      env.idbGetOk = true ∧ kvGet st.idb (generateKey patientId) = none)
    (hcache : kvGet st.cache (generateKey patientId) = none)
    (hroom : st.cache.length < cfg.CACHE_SIZE) :
    savePatientData cfg env st patientId data opts
      = (.ok true,
          { st with
            idb := kvSet st.idb (generateKey patientId)
              (enrichPatientData cfg data patientId .opSave env.now),
            cache := st.cache ++ [(generateKey patientId,
              enrichPatientData cfg data patientId .opSave env.now)],
            cacheOrder := generateKey patientId :: st.cacheOrder }) := by
  unfold savePatientData savePatientDataTry
  simp only [retryOperation_const, if_neg hid, hval, checkStorageQuota]
  have hw : idbWriteOk env = .ok () := by simp [idbWriteOk, hset]
  rw [hw]
  have hupd := updateCache_fresh cfg { st with idb := kvSet st.idb (generateKey patientId) (enrichPatientData cfg data patientId .opSave env.now) } (generateKey patientId) (enrichPatientData cfg data patientId .opSave env.now) hcache hroom
  by_cases hb : cfg.BACKUP_ENABLED ∧ opts.backup ≠ some false
  · rw [if_pos hb, backupExistingData_noop cfg env st patientId hid (hbk hb).1 (hbk hb).2]
    rw [hupd]
  · rw [if_neg hb]
    rw [hupd]

/-- The concrete invalid record of the C1 counterexample: an object with
an `id` but no `name`, which `_validatePatientData` rejects. -/
def invalidRecNoName : JsValue := .obj (.cons "id" (.str "p1") .nil)

/-- Claim C1 as stated is FALSE at this input: on a nominal environment
(healthy backends) `savePatientData` catches the `ValidationError`, writes
the raw record to the `localStorage` fallback, and returns `true` — the
validation failure is silently converted into a success and the fallback
is engaged by a validation failure, not a quota or availability error. -/
theorem save_validation_swallowed_cex :
    validatePatientData invalidRecNoName
      = .error (createError "VALIDATION_ERROR"
          "Patient name is required and must be a non-empty string")
    ∧ savePatientData CONFIG {} emptyState "p1" invalidRecNoName {}
      = (.ok true,
          { emptyState with ls := [("patient-p1", jsonEncode invalidRecNoName)] }) :=
  ⟨rfl, rfl⟩

/-- Claim C1 (amended): `savePatientData` engages the `localStorage`
fallback on EVERY failure, validation failures included.  When the
fallback store is available the `ValidationError` is swallowed: the raw
record is written to the fallback and the call returns `true`.  Only when
the fallback is unavailable does the `ValidationError` surface to the
caller; in either case the primary backend is never written on a
validation failure. -/
theorem save_validation_error_fallback (env : Env) (st : SvcState)
    (patientId : String) (data : JsValue) (opts : SaveOpts) (e : JsError)
    (hid : patientId ≠ "") (hval : validatePatientData data = .error e) :
    (env.lsOk = false → savePatientData CONFIG env st patientId data opts = (.error e, st))
    ∧ (env.lsOk = true → savePatientData CONFIG env st patientId data opts
        = (.ok true,
            { st with ls := kvSet st.ls (generateKey patientId) (jsonEncode data) })) := by
  constructor
  · intro hls
    unfold savePatientData savePatientDataTry
    simp [if_neg hid, hval, tryLocalStorageFallbackSave, hls]
  · intro hls
    unfold savePatientData savePatientDataTry
    simp [if_neg hid, hval, tryLocalStorageFallbackSave, hls]

theorem save_validation_error_fallback_witness :
    ("p1" : String) ≠ ""
    ∧ validatePatientData invalidRecNoName
        = .error (createError "VALIDATION_ERROR"
            "Patient name is required and must be a non-empty string")
    ∧ savePatientData CONFIG { lsOk := false } emptyState "p1" invalidRecNoName {}
        = (.error (createError "VALIDATION_ERROR"
            "Patient name is required and must be a non-empty string"), emptyState) :=
  ⟨by decide, rfl,
    (save_validation_error_fallback { lsOk := false } emptyState "p1" invalidRecNoName {}
      (createError "VALIDATION_ERROR"
        "Patient name is required and must be a non-empty string")
      (by decide) rfl).1 rfl⟩

/-- Claim C5 as stated is FALSE: updating an id absent from the (empty)
store fails with the taxonomy's `VALIDATION_ERROR` code — the
`ERROR_CODES` taxonomy of storage.js contains no not-found code at all,
so the error cannot carry one. -/
theorem update_absent_not_notfound_cex :
    updatePatientData CONFIG {} emptyState "p9" (.obj .nil) {}
      = (.error (createError "VALIDATION_ERROR" "Patient p9 not found for update"),
          emptyState)
    ∧ "NOT_FOUND" ∉ ERROR_CODES ∧ "NOT_FOUND_ERROR" ∉ ERROR_CODES :=
  ⟨rfl, by decide, by decide⟩

/-- Claim C5 (amended): for every id with no existing record (absent from
the primary backend, the fallback store and the cache),
`updatePatientData` fails with an error carrying the `VALIDATION_ERROR`
code and the `not found for update` message — the error taxonomy has no
dedicated not-found code — and persists nothing: the state is returned
unchanged. -/
theorem update_absent_fails_validation_code (cfg : Config) (env : Env)
    (st : SvcState) (patientId : String) (updates : JsValue) (opts : SaveOpts)
    (hidb : kvGet st.idb (generateKey patientId) = none)
    (hls : kvGet st.ls (generateKey patientId) = none)
    (hcache : kvGet st.cache (generateKey patientId) = none) :
    updatePatientData cfg env st patientId updates opts
      = (.error (createError "VALIDATION_ERROR"
          ("Patient " ++ patientId ++ " not found for update")), st)
    ∧ (createError "VALIDATION_ERROR"
        ("Patient " ++ patientId ++ " not found for update")).code ∈ ERROR_CODES := by
  constructor
  · unfold updatePatientData
    rw [loadPatientData_absent cfg env st patientId {} hidb hls hcache]
  · simp [createError, ERROR_CODES]

theorem update_absent_fails_validation_code_witness :
    kvGet emptyState.idb (generateKey "p9") = none
    ∧ kvGet emptyState.ls (generateKey "p9") = none
    ∧ kvGet emptyState.cache (generateKey "p9") = none
    ∧ (updatePatientData CONFIG {} emptyState "p9" (.obj .nil) {}
        = (.error (createError "VALIDATION_ERROR" "Patient p9 not found for update"),
            emptyState)
      ∧ (createError "VALIDATION_ERROR" "Patient p9 not found for update").code
          ∈ ERROR_CODES) :=
  ⟨rfl, rfl, rfl,
    update_absent_fails_validation_code CONFIG {} emptyState "p9" (.obj .nil) {}
      rfl rfl rfl⟩

/-- Claim C9: loading an id that was never saved (absent from the primary
backend, the fallback store, and hence the cache) resolves to `null`
without raising, under every fault environment; the state is returned
unchanged, so every repetition of the call returns `null` again. -/
theorem load_never_saved_null (cfg : Config) (env : Env) (st : SvcState)
    (patientId : String) (options : LoadOpts)
    (hidb : kvGet st.idb (generateKey patientId) = none)
    (hls : kvGet st.ls (generateKey patientId) = none)
    (hcache : kvGet st.cache (generateKey patientId) = none) :
    loadPatientData cfg env st patientId options = (.ok none, st) :=
  loadPatientData_absent cfg env st patientId options hidb hls hcache

theorem load_never_saved_null_witness :
    kvGet emptyState.idb (generateKey "ghost") = none
    ∧ kvGet emptyState.ls (generateKey "ghost") = none
    ∧ kvGet emptyState.cache (generateKey "ghost") = none
    ∧ loadPatientData CONFIG { idbGetOk := false } emptyState "ghost" {}
        = (.ok none, emptyState) :=
  ⟨rfl, rfl, rfl,
    load_never_saved_null CONFIG { idbGetOk := false } emptyState "ghost" {}
      rfl rfl rfl⟩

/-- Claim C10: `loadPatientData` never rejects, for any id, options,
state and fault environment: the catch-all handler resolves every
internal failure (backend read failure after retries, corrupted stored
data, invalid id) to fallback data or `null`. -/
theorem load_never_throws (cfg : Config) (env : Env) (st : SvcState)
    (patientId : String) (options : LoadOpts) :
    ∃ r, (loadPatientData cfg env st patientId options).1 = .ok r := by
  unfold loadPatientData
  rcases htry : loadPatientDataTry cfg env st patientId options with ⟨res, st'⟩
  match res with
  | .ok r => exact ⟨r, by simp⟩
  | .error e =>
      rcases hfb : tryLocalStorageFallbackLoad env st' patientId with ⟨fb, st''⟩
      match fb with
      | some v =>
          by_cases hv : v.jsTruthy
          · exact ⟨some v, by simp [hfb, hv]⟩
          · exact ⟨none, by simp [hfb, hv]⟩
      | none => exact ⟨none, by simp [hfb]⟩

theorem kvSet_length_present (l : List (String × α)) (k : String) (v : α)
    (h : (kvGet l k).isSome) : (kvSet l k v).length = l.length := by
  induction l with
  | nil => simp [kvGet] at h
  | cons hd tl ih =>
      obtain ⟨k0, v0⟩ := hd
      by_cases h0 : k0 = k
      · simp [kvSet, h0]
      · simp [kvGet, h0] at h
        simp [kvSet, h0, ih h]

/-- `_updateCache` on an already-cached key with the cache within bounds:
replaces the value in place and moves the key to the front of the order;
no eviction. -/
theorem updateCache_present (cfg : Config) (st : SvcState) (key : String)
    (data : JsValue) (hpres : (kvGet st.cache key).isSome)
    (hbound : st.cache.length ≤ cfg.CACHE_SIZE) :
    updateCache cfg st key data
      = { st with cache := kvSet st.cache key data,
                  cacheOrder := key :: st.cacheOrder.erase key } := by
  unfold updateCache
  simp only [hpres, if_true, removeFromCacheOrder]
  rw [evictLoop_of_le _ _ _ _ (by rw [kvSet_length_present _ _ _ hpres]; exact hbound)]

/-- `loadPatientData` on a cache miss (bypassed or cold cache) with a
healthy backend holding a truthy object record: returns the STORED record
unchanged, caches it, and re-persists the access-enriched version
(write-on-read). -/
theorem loadPatientData_backend_hit (cfg : Config) (env : Env) (st : SvcState)
    (patientId : String) (options : LoadOpts) (v : JsValue)
    (hid : patientId ≠ "") (hget : env.idbGetOk = true) (hset : env.idbSetOk = true)
    (hmiss : options.useCache = some false ∨ kvGet st.cache (generateKey patientId) = none)
    (hstored : kvGet st.idb (generateKey patientId) = some v)
    (htruthy : v.jsTruthy = true) (hobj : v.jsTypeof = "object") :
    loadPatientData cfg env st patientId options
      = (.ok (some v),
          { updateCache cfg st (generateKey patientId) v with
              idb := kvSet (updateCache cfg st (generateKey patientId) v).idb
                (generateKey patientId)
                (enrichPatientData cfg v patientId .opAccess env.now) }) := by
  unfold loadPatientData loadPatientDataTry
  simp only [retryOperation_const, if_neg hid]
  have hcond : ¬(options.useCache ≠ some false
      ∧ (kvGet st.cache (generateKey patientId)).isSome = true) := by
    rcases hmiss with h | h
    · simp [h]
    · simp [h]
  rw [if_neg hcond]
  simp [idbGet, hget, hstored, htruthy, validateStoredData, hobj, idbWriteOk, hset]

theorem updateCache_idb (cfg : Config) (st : SvcState) (key : String)
    (data : JsValue) : (updateCache cfg st key data).idb = st.idb := rfl

/-- The concrete record of the spec's §8 example scenario. -/
def janeRec : JsValue :=
  .obj (.cons "id" (.str "abc123")
    (.cons "name" (.str "Jane Doe")
      (.cons "dateCreated" (.str "2024-01-01T00:00:00Z") .nil)))

/-- Claim C4 as stated is FALSE at the spec's own example: after saving
`janeRec` and loading it back on a cache miss (`useCache: false`), the
call RETURNS the stored record with `metadata.accessCount` still `0` —
the incremented copy is only re-persisted, not returned. -/
theorem load_returns_preincrement_cex :
    (loadPatientData CONFIG { now := 1 }
        (savePatientData CONFIG {} emptyState "abc123" janeRec {}).2
        "abc123" ⟨some false⟩).1
      = .ok (some (enrichPatientData CONFIG janeRec "abc123" .opSave 0))
    ∧ metaField (enrichPatientData CONFIG janeRec "abc123" .opSave 0) "accessCount"
        = some (.num 0) :=
  ⟨rfl, rfl⟩

/-- Claim C4 (amended): for every record without prior metadata saved
once and then loaded once on a cache miss, `loadPatientData` re-persists
the record with `metadata.accessCount` incremented to 1 and
`metadata.lastAccessed` refreshed to the load time (the write-on-read
side effect), and RETURNS the record with the pre-update metadata
(`accessCount` 0). -/
theorem load_write_on_read (env1 env2 : Env) (patientId : String) (data : JsValue)
    (hget1 : env1.idbGetOk = true) (hset1 : env1.idbSetOk = true)
    (hget2 : env2.idbGetOk = true) (hset2 : env2.idbSetOk = true)
    (hid : patientId ≠ "") (hval : validatePatientData data = .ok data)
    (hmeta : data.getField "metadata" = none) :
    (savePatientData CONFIG env1 emptyState patientId data {}).1 = .ok true
    ∧ (loadPatientData CONFIG env2
        (savePatientData CONFIG env1 emptyState patientId data {}).2
        patientId ⟨some false⟩).1
      = .ok (some (enrichPatientData CONFIG data patientId .opSave env1.now))
    ∧ metaField (enrichPatientData CONFIG data patientId .opSave env1.now)
        "accessCount" = some (.num 0)
    ∧ kvGet (loadPatientData CONFIG env2
        (savePatientData CONFIG env1 emptyState patientId data {}).2
        patientId ⟨some false⟩).2.idb (generateKey patientId)
      = some (enrichPatientData CONFIG
          (enrichPatientData CONFIG data patientId .opSave env1.now)
          patientId .opAccess env2.now)
    ∧ metaField (enrichPatientData CONFIG
        (enrichPatientData CONFIG data patientId .opSave env1.now)
        patientId .opAccess env2.now) "accessCount" = some (.num 1)
    ∧ metaField (enrichPatientData CONFIG
        (enrichPatientData CONFIG data patientId .opSave env1.now)
        patientId .opAccess env2.now) "lastAccessed"
      = some (.str (isoTime env2.now)) := by
  have hsave := savePatientData_valid_fresh CONFIG env1 emptyState patientId data {}
    hset1 hid hval (fun _ => ⟨hget1, rfl⟩) rfl (by decide)
  have he0 := enrichPatientData_fields CONFIG data patientId .opSave env1.now
  have hcount0 : metaField (enrichPatientData CONFIG data patientId .opSave env1.now)
      "accessCount" = some (.num 0) := by
    rw [he0.2.2.1]
    simp [metaField, hmeta, jsNumOrZero]
  have he1 := enrichPatientData_fields CONFIG
    (enrichPatientData CONFIG data patientId .opSave env1.now) patientId
    .opAccess env2.now
  have hcount1 : metaField (enrichPatientData CONFIG
      (enrichPatientData CONFIG data patientId .opSave env1.now)
      patientId .opAccess env2.now) "accessCount" = some (.num 1) := by
    rw [he1.2.2.1, hcount0]
    simp [jsNumOrZero]
  have hload := loadPatientData_backend_hit CONFIG env2
    { emptyState with
        idb := kvSet emptyState.idb (generateKey patientId)
          (enrichPatientData CONFIG data patientId .opSave env1.now),
        cache := emptyState.cache ++ [(generateKey patientId,
          enrichPatientData CONFIG data patientId .opSave env1.now)],
        cacheOrder := generateKey patientId :: emptyState.cacheOrder }
    patientId ⟨some false⟩ (enrichPatientData CONFIG data patientId .opSave env1.now)
    hid hget2 hset2 (Or.inl rfl)
    (kvGet_kvSet_self _ _ _) he0.1 he0.2.1
  refine ⟨by rw [hsave], ?_, hcount0, ?_, hcount1, he1.2.2.2⟩
  · rw [hsave, hload]
  · rw [hsave, hload]
    exact kvGet_kvSet_self _ _ _

theorem load_write_on_read_witness :
    (Env.idbGetOk {} = true ∧ Env.idbSetOk {} = true
      ∧ Env.idbGetOk { now := 1 } = true ∧ Env.idbSetOk { now := 1 } = true
      ∧ ("abc123" : String) ≠ ""
      ∧ validatePatientData janeRec = .ok janeRec
      ∧ janeRec.getField "metadata" = none)
    ∧ metaField (enrichPatientData CONFIG janeRec "abc123" .opSave 0)
        "accessCount" = some (.num 0)
    ∧ metaField (enrichPatientData CONFIG
        (enrichPatientData CONFIG janeRec "abc123" .opSave 0)
        "abc123" .opAccess 1) "accessCount" = some (.num 1)
    ∧ kvGet (loadPatientData CONFIG { now := 1 }
        (savePatientData CONFIG {} emptyState "abc123" janeRec {}).2
        "abc123" ⟨some false⟩).2.idb (generateKey "abc123")
      = some (enrichPatientData CONFIG
          (enrichPatientData CONFIG janeRec "abc123" .opSave 0)
          "abc123" .opAccess 1) :=
  ⟨⟨rfl, rfl, rfl, rfl, by decide, rfl, rfl⟩,
    (load_write_on_read {} { now := 1 } "abc123" janeRec rfl rfl rfl rfl
      (by decide) rfl rfl).2.2.1,
    (load_write_on_read {} { now := 1 } "abc123" janeRec rfl rfl rfl rfl
      (by decide) rfl rfl).2.2.2.2.1,
    (load_write_on_read {} { now := 1 } "abc123" janeRec rfl rfl rfl rfl
      (by decide) rfl rfl).2.2.2.1⟩

/-- An item of a batch that write-side validation accepts: non-empty id
(the top-of-`savePatientData` check) and a record `_validatePatientData`
returns. -/
def passesWriteValidation (item : String × JsValue) : Bool :=
  item.1 != "" && (match validatePatientData item.2 with
    | .ok _ => true
    | .error _ => false)

theorem passesWriteValidation_spec (item : String × JsValue) :
    passesWriteValidation item = true
      ↔ (item.1 ≠ "" ∧ validatePatientData item.2 = .ok item.2) := by
  unfold passesWriteValidation
  constructor
  · intro h
    simp only [Bool.and_eq_true, bne_iff_ne, ne_eq] at h
    refine ⟨h.1, ?_⟩
    rcases h2 : validatePatientData item.2 with e | v
    · rw [h2] at h
      simp at h
    · have hveq := (validatePatientData_ok item.2 v h2).1
      subst hveq
      rfl
  · intro ⟨h1, h2⟩
    simp [h1, h2]

/-- A batch item the write path rejects (empty id or validation error)
leaves the state untouched when the fallback store is unavailable: the
original error propagates. -/
theorem savePatientData_invalid (cfg : Config) (env : Env) (st : SvcState)
    (patientId : String) (data : JsValue) (opts : SaveOpts)
    (hls : env.lsOk = false)
    (hinv : passesWriteValidation (patientId, data) = false) :
    ∃ e, savePatientData cfg env st patientId data opts = (.error e, st) := by
  unfold savePatientData savePatientDataTry
  by_cases hid : patientId = ""
  · refine ⟨createError "VALIDATION_ERROR" "Patient ID is required and must be string", ?_⟩
    simp [hid, tryLocalStorageFallbackSave, hls]
  · have hv : ∃ e, validatePatientData data = .error e := by
      rcases h2 : validatePatientData data with e | v
      · exact ⟨e, rfl⟩
      · exfalso
        rw [(validatePatientData_ok data v h2).1] at h2
        rw [(passesWriteValidation_spec (patientId, data)).2 ⟨hid, h2⟩] at hinv
        simp at hinv
    obtain ⟨e, he⟩ := hv
    refine ⟨e, ?_⟩
    simp [if_neg hid, he, tryLocalStorageFallbackSave, hls]

theorem length_filter_add_length_filter_not (p : α → Bool) (l : List α) :
    (l.filter p).length + (l.filter (fun a => !p a)).length = l.length := by
  induction l with
  | nil => simp
  | cons hd tl ih =>
      by_cases h : p hd
      · simp [List.filter, h, ← ih]
        omega
      · simp only [List.filter, h, Bool.not_false]
        simp [← ih]
        omega

/-- `loadPatientData` on a cache hit: returns the cached value and only
bumps the recency order (no backend access). -/
theorem loadPatientData_cache_hit (cfg : Config) (env : Env) (st : SvcState)
    (patientId : String) (options : LoadOpts) (v : JsValue)
    (hid : patientId ≠ "") (hopts : options.useCache ≠ some false)
    (hc : kvGet st.cache (generateKey patientId) = some v) :
    loadPatientData cfg env st patientId options
      = (.ok (some v), updateCacheAccess st (generateKey patientId)) := by
  unfold loadPatientData loadPatientDataTry
  rw [if_neg hid, if_pos ⟨hopts, by simp [hc]⟩, hc]

/-- The `saveMultiplePatients` loop on a batch of distinct ids, with the
fallback store unavailable and a healthy primary write path: counts one
success per item that passes write-side validation and one failure per
item that does not, touches `localStorage` never, and caches exactly the
enriched records of the passing items in order. -/
theorem saveMultiple_fold (env : Env) (hls : env.lsOk = false)
    (hset : env.idbSetOk = true) :
    ∀ (items : List (String × JsValue)) (acc : BatchResults) (st : SvcState),
    (items.map Prod.fst).Nodup →
    (∀ it ∈ items, passesWriteValidation it = true →
      kvGet st.cache (generateKey it.1) = none) →
    st.cache.length + (items.filter passesWriteValidation).length ≤ CONFIG.CACHE_SIZE →
    (items.foldl (saveMultipleStep CONFIG env) (acc, st)).1.total = acc.total
    ∧ (items.foldl (saveMultipleStep CONFIG env) (acc, st)).1.successful
        = acc.successful + (items.filter passesWriteValidation).length
    ∧ (items.foldl (saveMultipleStep CONFIG env) (acc, st)).1.failed
        = acc.failed + (items.filter (fun it => !passesWriteValidation it)).length
    ∧ (items.foldl (saveMultipleStep CONFIG env) (acc, st)).2.cache
        = st.cache ++ (items.filter passesWriteValidation).map
            (fun it => (generateKey it.1,
              enrichPatientData CONFIG it.2 it.1 .opSave env.now))
  | [], acc, st, _, _, _ => by simp
  | hd :: tl, acc, st, hnodup, hc, hbound => by
      have hndtl : (tl.map Prod.fst).Nodup := by
        simp only [List.map_cons, List.nodup_cons] at hnodup
        exact hnodup.2
      have hhd : hd.1 ∉ tl.map Prod.fst := by
        simp only [List.map_cons, List.nodup_cons] at hnodup
        exact hnodup.1
      by_cases hpass : passesWriteValidation hd = true
      · obtain ⟨hid, hval⟩ := (passesWriteValidation_spec hd).1 hpass
        have hfcons : (hd :: tl).filter passesWriteValidation
            = hd :: tl.filter passesWriteValidation := by
          simp [List.filter, hpass]
        have hroom : st.cache.length < CONFIG.CACHE_SIZE := by
          rw [hfcons] at hbound
          simp at hbound
          omega
        have hsave := savePatientData_valid_fresh CONFIG env st hd.1 hd.2
          ⟨some false⟩ hset hid hval (fun hb => absurd hb.2 (by simp))
          (hc hd (List.mem_cons_self hd tl) hpass) hroom
        have hstep : saveMultipleStep CONFIG env (acc, st) hd
            = ({ acc with successful := acc.successful + 1 },
                { st with
                  idb := kvSet st.idb (generateKey hd.1)
                    (enrichPatientData CONFIG hd.2 hd.1 .opSave env.now),
                  cache := st.cache ++ [(generateKey hd.1,
                    enrichPatientData CONFIG hd.2 hd.1 .opSave env.now)],
                  cacheOrder := generateKey hd.1 :: st.cacheOrder }) := by
          simp only [saveMultipleStep]
          rw [hsave]
        have hcache' : ∀ it ∈ tl, passesWriteValidation it = true →
            kvGet ({ st with
                  idb := kvSet st.idb (generateKey hd.1)
                    (enrichPatientData CONFIG hd.2 hd.1 .opSave env.now),
                  cache := st.cache ++ [(generateKey hd.1,
                    enrichPatientData CONFIG hd.2 hd.1 .opSave env.now)],
                  cacheOrder := generateKey hd.1 :: st.cacheOrder } : SvcState).cache
              (generateKey it.1) = none := by
          intro it hit hp
          have hne : generateKey hd.1 ≠ generateKey it.1 := by
            intro heq
            exact hhd (by
              rw [generateKey_injective hd.1 it.1 heq]
              exact List.mem_map_of_mem Prod.fst hit)
          rw [kvGet_append_right _ _ _ (hc it (List.mem_cons_of_mem hd hit) hp)]
          simp [kvGet, hne]
        have hbound' : ({ st with
                  idb := kvSet st.idb (generateKey hd.1)
                    (enrichPatientData CONFIG hd.2 hd.1 .opSave env.now),
                  cache := st.cache ++ [(generateKey hd.1,
                    enrichPatientData CONFIG hd.2 hd.1 .opSave env.now)],
                  cacheOrder := generateKey hd.1 :: st.cacheOrder } : SvcState).cache.length
              + (tl.filter passesWriteValidation).length ≤ CONFIG.CACHE_SIZE := by
          rw [hfcons] at hbound
          simp at hbound ⊢
          omega
        have ih := saveMultiple_fold env hls hset tl
          { acc with successful := acc.successful + 1 }
          { st with
            idb := kvSet st.idb (generateKey hd.1)
              (enrichPatientData CONFIG hd.2 hd.1 .opSave env.now),
            cache := st.cache ++ [(generateKey hd.1,
              enrichPatientData CONFIG hd.2 hd.1 .opSave env.now)],
            cacheOrder := generateKey hd.1 :: st.cacheOrder }
          hndtl hcache' hbound'
        rw [List.foldl_cons, hstep]
        refine ⟨ih.1, ?_, ?_, ?_⟩
        · rw [ih.2.1, hfcons]
          simp
          omega
        · rw [ih.2.2.1]
          have : (hd :: tl).filter (fun it => !passesWriteValidation it)
              = tl.filter (fun it => !passesWriteValidation it) := by
            simp [List.filter, hpass]
          rw [this]
        · rw [ih.2.2.2, hfcons]
          simp
      · have hinvalid := savePatientData_invalid CONFIG env st hd.1 hd.2
          ⟨some false⟩ hls (by simpa using hpass)
        obtain ⟨e, he⟩ := hinvalid
        have hstep : saveMultipleStep CONFIG env (acc, st) hd
            = ({ acc with failed := acc.failed + 1, errors := acc.errors ++ [(hd.1, e.message)] }, st) := by
          simp only [saveMultipleStep]
          rw [he]
        have ih := saveMultiple_fold env hls hset tl
          { acc with failed := acc.failed + 1, errors := acc.errors ++ [(hd.1, e.message)] } st
          hndtl (fun it hit hp => hc it (List.mem_cons_of_mem hd hit) hp)
          (by
            have : (hd :: tl).filter passesWriteValidation
                = tl.filter passesWriteValidation := by
              simp [List.filter, hpass]
            rw [this] at hbound
            exact hbound)
        rw [List.foldl_cons, hstep]
        have hfcons : (hd :: tl).filter passesWriteValidation
            = tl.filter passesWriteValidation := by
          simp [List.filter, hpass]
        have hfncons : (hd :: tl).filter (fun it => !passesWriteValidation it)
            = hd :: tl.filter (fun it => !passesWriteValidation it) := by
          simp [List.filter, hpass]
        refine ⟨ih.1, ?_, ?_, ?_⟩
        · rw [ih.2.1, hfcons]
        · rw [ih.2.2.1, hfncons]
          simp
          omega
        · rw [ih.2.2.2, hfcons]

theorem kvGet_filter_map (f : String × JsValue → JsValue) :
    ∀ (items : List (String × JsValue)), (items.map Prod.fst).Nodup →
    ∀ it ∈ items, passesWriteValidation it = true →
    kvGet ((items.filter passesWriteValidation).map
        (fun j => (generateKey j.1, f j))) (generateKey it.1) = some (f it)
  | [], _, it, hit, _ => absurd hit (List.not_mem_nil it)
  | hd :: tl, hnodup, it, hit, hp => by
      have hndtl : (tl.map Prod.fst).Nodup := by
        simp only [List.map_cons, List.nodup_cons] at hnodup
        exact hnodup.2
      have hhd : hd.1 ∉ tl.map Prod.fst := by
        simp only [List.map_cons, List.nodup_cons] at hnodup
        exact hnodup.1
      rcases List.mem_cons.1 hit with heq | hmem
      · subst heq
        rw [List.filter_cons_of_pos hp]
        simp [kvGet]
      · have hne : generateKey hd.1 ≠ generateKey it.1 := by
          intro heq
          exact hhd (by
            rw [generateKey_injective hd.1 it.1 heq]
            exact List.mem_map_of_mem Prod.fst hmem)
        by_cases hphd : passesWriteValidation hd = true
        · rw [List.filter_cons_of_pos hphd]
          simp only [List.map_cons, kvGet, if_neg hne]
          exact kvGet_filter_map f tl hndtl it hmem hp
        · rw [List.filter_cons_of_neg (by simpa using hphd)]
          exact kvGet_filter_map f tl hndtl it hmem hp

/-- Claim C2 as stated is FALSE on a healthy environment: this concrete
batch of 10 records, 3 of which fail write-side validation, reports
`successful = 10, failed = 0`, because each rejected record is diverted
to the `localStorage` fallback and counted a success. -/
def c2Batch : List (String × JsValue) :=
  [("v1", janeRec.spreadFields.setF "id" (.str "v1") |> .obj),
   ("v2", janeRec.spreadFields.setF "id" (.str "v2") |> .obj),
   ("v3", janeRec.spreadFields.setF "id" (.str "v3") |> .obj),
   ("v4", janeRec.spreadFields.setF "id" (.str "v4") |> .obj),
   ("v5", janeRec.spreadFields.setF "id" (.str "v5") |> .obj),
   ("v6", janeRec.spreadFields.setF "id" (.str "v6") |> .obj),
   ("v7", janeRec.spreadFields.setF "id" (.str "v7") |> .obj),
   ("b1", invalidRecNoName),
   ("b2", .nullv),
   ("b3", janeRec.spreadFields.setF "id" (.str "bad id!") |> .obj)]

theorem saveMany_counts_fallback_as_success_cex :
    c2Batch.length = 10
    ∧ (c2Batch.filter (fun it => !passesWriteValidation it)).length = 3
    ∧ (saveMultiplePatients CONFIG {} emptyState c2Batch).1.successful = 10
    ∧ (saveMultiplePatients CONFIG {} emptyState c2Batch).1.failed = 0 :=
  ⟨rfl, rfl, rfl, rfl⟩

/-- Claim C2 (amended): when the `localStorage` fallback is unavailable
(so rejected records cannot be diverted into fake successes), a batch of
10 distinct-id records of which exactly 3 fail write-side validation
completes without aborting and reports `successful = 7, failed = 3`, and
every record that passed validation is subsequently retrievable via
`loadPatientData`. -/
theorem saveMany_partial_failure (env : Env) (batch : List (String × JsValue))
    (hls : env.lsOk = false) (hset : env.idbSetOk = true)
    (hnodup : (batch.map Prod.fst).Nodup)
    (hlen : batch.length = 10)
    (hfail : (batch.filter (fun it => !passesWriteValidation it)).length = 3) :
    (saveMultiplePatients CONFIG env emptyState batch).1.total = 10
    ∧ (saveMultiplePatients CONFIG env emptyState batch).1.successful = 7
    ∧ (saveMultiplePatients CONFIG env emptyState batch).1.failed = 3
    ∧ ∀ it ∈ batch, passesWriteValidation it = true →
        (loadPatientData CONFIG env
            (saveMultiplePatients CONFIG env emptyState batch).2 it.1 {}).1
          = .ok (some (enrichPatientData CONFIG it.2 it.1 .opSave env.now)) := by
  have hsum := length_filter_add_length_filter_not passesWriteValidation batch
  have hseven : (batch.filter passesWriteValidation).length = 7 := by omega
  have hmain := saveMultiple_fold env hls hset batch ⟨batch.length, 0, 0, []⟩
    emptyState hnodup (fun it _ _ => rfl)
    (by
      show emptyState.cache.length + _ ≤ CONFIG.CACHE_SIZE
      rw [hseven]
      decide)
  unfold saveMultiplePatients
  refine ⟨by rw [hmain.1]; exact hlen, by rw [hmain.2.1, hseven],
    by rw [hmain.2.2.1, hfail], ?_⟩
  intro it hit hp
  have hcache : kvGet (List.foldl (saveMultipleStep CONFIG env)
      (⟨batch.length, 0, 0, []⟩, emptyState) batch).2.cache (generateKey it.1)
      = some (enrichPatientData CONFIG it.2 it.1 .opSave env.now) := by
    rw [hmain.2.2.2]
    show kvGet (List.nil ++ _) _ = _
    rw [List.nil_append]
    exact kvGet_filter_map
      (fun j => enrichPatientData CONFIG j.2 j.1 .opSave env.now)
      batch hnodup it hit hp
  rw [loadPatientData_cache_hit CONFIG env _ it.1 {} _
    ((passesWriteValidation_spec it).1 hp).1 (by simp) hcache]

theorem saveMany_partial_failure_witness :
    (Env.lsOk { lsOk := false } = false
      ∧ Env.idbSetOk { lsOk := false } = true
      ∧ (c2Batch.map Prod.fst).Nodup
      ∧ c2Batch.length = 10
      ∧ (c2Batch.filter (fun it => !passesWriteValidation it)).length = 3)
    ∧ ((saveMultiplePatients CONFIG { lsOk := false } emptyState c2Batch).1.total = 10
      ∧ (saveMultiplePatients CONFIG { lsOk := false } emptyState c2Batch).1.successful = 7
      ∧ (saveMultiplePatients CONFIG { lsOk := false } emptyState c2Batch).1.failed = 3
      ∧ ∀ it ∈ c2Batch, passesWriteValidation it = true →
          (loadPatientData CONFIG { lsOk := false }
              (saveMultiplePatients CONFIG { lsOk := false } emptyState c2Batch).2
              it.1 {}).1
            = .ok (some (enrichPatientData CONFIG it.2 it.1 .opSave
                (Env.now { lsOk := false })))) :=
  ⟨⟨rfl, rfl, by decide, rfl, rfl⟩,
    saveMany_partial_failure { lsOk := false } c2Batch rfl rfl (by decide) rfl rfl⟩

/-! ## Cache well-formedness (claim C8)

`this.cache` (a `Map`) and `this.cacheAccessOrder` (an array) are kept in
sync by the service: the order is duplicate-free and holds exactly the
cached keys, and the cache never exceeds `CACHE_SIZE`.  `CacheWF` states
this; every store operation preserves it. -/

theorem kvGet_isSome_iff_mem (l : List (String × α)) (k : String) :
    (kvGet l k).isSome = true ↔ k ∈ l.map Prod.fst := by
  induction l with
  | nil => simp [kvGet]
  | cons hd tl ih =>
      obtain ⟨k0, v0⟩ := hd
      by_cases h0 : k0 = k
      · simp [kvGet, h0]
      · simp [kvGet, h0, ih, Ne.symm h0]

theorem kvSet_map_fst (l : List (String × α)) (k : String) (v : α) :
    (kvSet l k v).map Prod.fst
      = if (kvGet l k).isSome then l.map Prod.fst else l.map Prod.fst ++ [k] := by
  induction l with
  | nil => simp [kvSet, kvGet]
  | cons hd tl ih =>
      obtain ⟨k0, v0⟩ := hd
      by_cases h0 : k0 = k
      · simp [kvSet, kvGet, h0]
      · simp only [kvSet, kvGet, h0, if_false, List.map_cons, ih]
        by_cases h1 : (kvGet tl k).isSome
        · simp [h1]
        · simp [h1]

theorem kvDel_map_fst (l : List (String × α)) (k : String) :
    (kvDel l k).map Prod.fst = (l.map Prod.fst).erase k := by
  induction l with
  | nil => simp [kvDel]
  | cons hd tl ih =>
      obtain ⟨k0, v0⟩ := hd
      by_cases h0 : k0 = k
      · simp [kvDel, h0, List.erase_cons_head]
      · simp [kvDel, h0, ih, List.erase_cons_tail, Ne.symm h0]

/-- The sync invariant between `this.cache` and `this.cacheAccessOrder`
plus the size bound. -/
def CacheWF (cfg : Config) (st : SvcState) : Prop :=
  (st.cache.map Prod.fst).Nodup
  ∧ st.cacheOrder.Nodup
  ∧ (∀ k, k ∈ st.cacheOrder ↔ k ∈ st.cache.map Prod.fst)
  ∧ st.cache.length ≤ cfg.CACHE_SIZE

theorem CacheWF_emptyState (cfg : Config) : CacheWF cfg emptyState := by
  refine ⟨by simp [emptyState], by simp [emptyState], fun k => by simp [emptyState], ?_⟩
  simp [emptyState]

/-- The eviction loop preserves the sync invariant and, given fuel at
least the overage, drives the cache size below the limit. -/
theorem evictLoop_wf : ∀ (limit fuel : Nat) (cache : List (String × JsValue))
    (order : List String),
    (cache.map Prod.fst).Nodup → order.Nodup →
    (∀ k, k ∈ order ↔ k ∈ cache.map Prod.fst) →
    cache.length ≤ limit + fuel →
    ((evictLoop limit fuel cache order).1.map Prod.fst).Nodup
    ∧ (evictLoop limit fuel cache order).2.Nodup
    ∧ (∀ k, k ∈ (evictLoop limit fuel cache order).2
        ↔ k ∈ (evictLoop limit fuel cache order).1.map Prod.fst)
    ∧ (evictLoop limit fuel cache order).1.length ≤ limit
  | limit, 0, cache, order, hk, ho, hs, hlen => by
      exact ⟨hk, ho, hs, by simpa using hlen⟩
  | limit, fuel + 1, cache, order, hk, ho, hs, hlen => by
      unfold evictLoop
      by_cases hle : cache.length ≤ limit
      · rw [if_pos hle]
        exact ⟨hk, ho, hs, hle⟩
      · rw [if_neg hle]
        have hperm : order.Perm (cache.map Prod.fst) :=
          (List.perm_ext_iff_of_nodup ho hk).2 hs
        have hlen2 : order.length = cache.length := by
          simpa using hperm.length_eq
        have hne : order ≠ [] := by
          intro hnil
          rw [hnil] at hlen2
          simp at hlen2
          omega
        match hlast : order.getLast? with
        | none =>
            exact absurd (List.getLast?_eq_none_iff.1 hlast) hne
        | some k0 =>
            have hdl : order.dropLast ++ [k0] = order := by
              have h1 := List.dropLast_append_getLast hne
              have h2 : order.getLast hne = k0 := by
                have h3 := List.getLast?_eq_getLast_of_ne_nil hne
                rw [h3] at hlast
                exact Option.some_inj.1 hlast
              rwa [h2] at h1
            have hk0mem : k0 ∈ order := by
              rw [← hdl]
              exact List.mem_append_right _ (by simp)
            have hk0cache : k0 ∈ cache.map Prod.fst := (hs k0).1 hk0mem
            have hknd : ((kvDel cache k0).map Prod.fst).Nodup := by
              rw [kvDel_map_fst]
              exact hk.erase k0
            have hond : order.dropLast.Nodup :=
              ho.sublist (List.dropLast_sublist order)
            have hk0ndl : k0 ∉ order.dropLast := by
              intro hmem
              have : ¬order.Nodup := by
                rw [← hdl]
                simp [List.nodup_append, hmem]
              exact this ho
            have hsync : ∀ k, k ∈ order.dropLast ↔ k ∈ (kvDel cache k0).map Prod.fst := by
              intro k
              rw [kvDel_map_fst, (hk.mem_erase_iff)]
              constructor
              · intro hm
                have hko : k ∈ order := by
                  rw [← hdl]
                  exact List.mem_append_left _ hm
                refine ⟨?_, (hs k).1 hko⟩
                intro heq
                exact hk0ndl (heq ▸ hm)
              · intro ⟨hne2, hmc⟩
                have hko : k ∈ order := (hs k).2 hmc
                rw [← hdl] at hko
                rcases List.mem_append.1 hko with h | h
                · exact h
                · simp at h
                  exact absurd h hne2
            have hlen3 : (kvDel cache k0).length ≤ limit + fuel := by
              have : (kvDel cache k0).length = cache.length - 1 := by
                have h1 := congrArg List.length (kvDel_map_fst cache k0)
                rw [List.length_erase_of_mem hk0cache] at h1
                simpa using h1
              omega
            exact evictLoop_wf limit fuel (kvDel cache k0) order.dropLast
              hknd hond hsync hlen3

theorem CacheWF_updateCache (cfg : Config) (st : SvcState) (key : String)
    (data : JsValue) (h : CacheWF cfg st) :
    CacheWF cfg (updateCache cfg st key data) := by
  obtain ⟨hk, ho, hs, hlen⟩ := h
  unfold updateCache
  by_cases hmem : (kvGet st.cache key).isSome
  · simp only [hmem, if_true, removeFromCacheOrder]
    have hkeys : (kvSet st.cache key data).map Prod.fst = st.cache.map Prod.fst := by
      rw [kvSet_map_fst]
      simp [hmem]
    have hkmem : key ∈ st.cache.map Prod.fst := (kvGet_isSome_iff_mem _ _).1 hmem
    have hnd2 : (key :: st.cacheOrder.erase key).Nodup := by
      refine List.nodup_cons.2 ⟨?_, ho.erase key⟩
      exact fun hc => (ho.mem_erase_iff.1 hc).1 rfl
    have hsync2 : ∀ k, k ∈ key :: st.cacheOrder.erase key
        ↔ k ∈ (kvSet st.cache key data).map Prod.fst := by
      intro k
      rw [hkeys, List.mem_cons, ho.mem_erase_iff]
      constructor
      · rintro (rfl | ⟨_, hm⟩)
        · exact hkmem
        · exact (hs k).1 hm
      · intro hm
        by_cases hkk : k = key
        · exact Or.inl hkk
        · exact Or.inr ⟨hkk, (hs k).2 hm⟩
    have hlen2 : (kvSet st.cache key data).length
        ≤ cfg.CACHE_SIZE + (key :: st.cacheOrder.erase key).length := by
      rw [kvSet_length_present _ _ _ hmem]
      omega
    have := evictLoop_wf cfg.CACHE_SIZE (key :: st.cacheOrder.erase key).length
      (kvSet st.cache key data) (key :: st.cacheOrder.erase key)
      (by rw [hkeys]; exact hk) hnd2 (fun k => hsync2 k) hlen2
    exact ⟨this.1, this.2.1, this.2.2.1, this.2.2.2⟩
  · simp only [hmem, Bool.false_eq_true, if_false]
    have hnone : kvGet st.cache key = none := by
      cases hkv : kvGet st.cache key with
      | none => rfl
      | some v => simp [hkv] at hmem
    have hkeys : (kvSet st.cache key data).map Prod.fst
        = st.cache.map Prod.fst ++ [key] := by
      rw [kvSet_map_fst]
      simp [hnone]
    have hkmem : key ∉ st.cache.map Prod.fst := by
      intro hc
      rw [← kvGet_isSome_iff_mem] at hc
      simp [hc] at hmem
    have hnd2 : (key :: st.cacheOrder).Nodup := by
      refine List.nodup_cons.2 ⟨?_, ho⟩
      intro hc
      exact hkmem ((hs key).1 hc)
    have hsync2 : ∀ k, k ∈ key :: st.cacheOrder
        ↔ k ∈ (kvSet st.cache key data).map Prod.fst := by
      intro k
      rw [hkeys, List.mem_cons, List.mem_append]
      constructor
      · rintro (rfl | hm)
        · exact Or.inr (by simp)
        · exact Or.inl ((hs k).1 hm)
      · rintro (hm | hm)
        · exact Or.inr ((hs k).2 hm)
        · simp at hm
          exact Or.inl hm
    have hlen2 : (kvSet st.cache key data).length
        ≤ cfg.CACHE_SIZE + (key :: st.cacheOrder).length := by
      rw [kvSet_fresh _ _ _ hnone]
      simp
      omega
    have := evictLoop_wf cfg.CACHE_SIZE (key :: st.cacheOrder).length
      (kvSet st.cache key data) (key :: st.cacheOrder)
      (by rw [hkeys]; exact (List.nodup_append.2 ⟨hk, by simp, by simpa using hkmem⟩))
      hnd2 (fun k => hsync2 k) hlen2
    exact ⟨this.1, this.2.1, this.2.2.1, this.2.2.2⟩

theorem CacheWF_updateCacheAccess (cfg : Config) (st : SvcState) (key : String)
    (h : CacheWF cfg st) (hmem : (kvGet st.cache key).isSome = true) :
    CacheWF cfg (updateCacheAccess st key) := by
  obtain ⟨hk, ho, hs, hlen⟩ := h
  have hkmem : key ∈ st.cache.map Prod.fst := (kvGet_isSome_iff_mem _ _).1 hmem
  refine ⟨hk, ?_, ?_, hlen⟩
  · refine List.nodup_cons.2 ⟨?_, ho.erase key⟩
    exact fun hc => (ho.mem_erase_iff.1 hc).1 rfl
  · intro k
    show k ∈ key :: st.cacheOrder.erase key ↔ _
    rw [List.mem_cons, ho.mem_erase_iff]
    constructor
    · rintro (rfl | ⟨_, hm⟩)
      · exact hkmem
      · exact (hs k).1 hm
    · intro hm
      by_cases hkk : k = key
      · exact Or.inl hkk
      · exact Or.inr ⟨hkk, (hs k).2 hm⟩

theorem CacheWF_deleteStep (cfg : Config) (st : SvcState) (key : String)
    (h : CacheWF cfg st) (idb' : List (String × JsValue)) :
    CacheWF cfg { st with idb := idb', cache := kvDel st.cache key, cacheOrder := removeFromCacheOrder st.cacheOrder key } := by
  obtain ⟨hk, ho, hs, hlen⟩ := h
  refine ⟨?_, ho.erase key, ?_, ?_⟩
  · show ((kvDel st.cache key).map Prod.fst).Nodup
    rw [kvDel_map_fst]
    exact hk.erase key
  · intro k
    show k ∈ st.cacheOrder.erase key ↔ k ∈ (kvDel st.cache key).map Prod.fst
    rw [kvDel_map_fst, ho.mem_erase_iff, hk.mem_erase_iff]
    exact and_congr_right (fun _ => hs k)
  · show (kvDel st.cache key).length ≤ cfg.CACHE_SIZE
    have h1 := congrArg List.length (kvDel_map_fst st.cache key)
    simp only [List.length_map] at h1
    have h2 : ((st.cache.map Prod.fst).erase key).length
        ≤ (st.cache.map Prod.fst).length := (List.erase_sublist _ _).length_le
    simp only [List.length_map] at h2
    omega

/-- `CacheWF` only reads the `cache` and `cacheOrder` fields, so updating
the backends preserves it. -/
theorem CacheWF_set_idb (cfg : Config) (st : SvcState)
    (idb' : List (String × JsValue)) (ls' : List (String × String))
    (h : CacheWF cfg st) : CacheWF cfg { st with idb := idb', ls := ls' } := h

theorem tryLsLoad_state (env : Env) (st : SvcState) (patientId : String) :
    (tryLocalStorageFallbackLoad env st patientId).2 = st := by
  unfold tryLocalStorageFallbackLoad
  repeat' split
  all_goals rfl

theorem tryLsSave_state (env : Env) (st : SvcState) (patientId : String)
    (data : JsValue) :
    (tryLocalStorageFallbackSave env st patientId data).2
      = if env.lsOk then { st with ls := kvSet st.ls (generateKey patientId) (jsonEncode data) } else st := by
  unfold tryLocalStorageFallbackSave
  split
  · rfl
  · rfl

theorem CacheWF_loadTry (cfg : Config) (env : Env) (st : SvcState)
    (patientId : String) (opts : LoadOpts) (h : CacheWF cfg st) :
    CacheWF cfg (loadPatientDataTry cfg env st patientId opts).2 := by
  unfold loadPatientDataTry
  by_cases hid : patientId = ""
  · simp only [hid, if_pos rfl]
    exact h
  · rw [if_neg hid]
    by_cases hhit : opts.useCache ≠ some false
        ∧ (kvGet st.cache (generateKey patientId)).isSome = true
    · rw [if_pos hhit]
      exact CacheWF_updateCacheAccess cfg st _ h hhit.2
    · rw [if_neg hhit]
      split
      · exact h
      · exact h
      · split
        · split
          · exact h
          · split
            · exact CacheWF_updateCache cfg st _ _ h
            · exact CacheWF_updateCache cfg st _ _ h
        · exact h

theorem CacheWF_loadOp (cfg : Config) (env : Env) (st : SvcState)
    (patientId : String) (opts : LoadOpts) (h : CacheWF cfg st) :
    CacheWF cfg (loadPatientData cfg env st patientId opts).2 := by
  unfold loadPatientData
  split
  · next r st' heq =>
      have : st' = (loadPatientDataTry cfg env st patientId opts).2 :=
        (congrArg Prod.snd heq).symm
      rw [this]
      exact CacheWF_loadTry cfg env st patientId opts h
  · next e st' heq =>
      have hst' : st' = (loadPatientDataTry cfg env st patientId opts).2 :=
        (congrArg Prod.snd heq).symm
      have hwf' : CacheWF cfg st' := by
        rw [hst']
        exact CacheWF_loadTry cfg env st patientId opts h
      rcases hpair : tryLocalStorageFallbackLoad env st' patientId with ⟨fb, st''⟩
      have hst'' : st'' = st' := by
        have h2 := tryLsLoad_state env st' patientId
        rw [hpair] at h2
        exact h2
      simp only [hpair]
      subst hst''
      cases fb with
      | none => exact hwf'
      | some v =>
          by_cases hv : v.jsTruthy
          · simpa [hv] using hwf'
          · simpa [hv] using hwf'

theorem CacheWF_backup (cfg : Config) (env : Env) (st : SvcState)
    (patientId : String) (h : CacheWF cfg st) :
    CacheWF cfg (backupExistingData cfg env st patientId) := by
  unfold backupExistingData
  split
  · next ex st1 heq =>
      have hst1 : st1 = (loadPatientData cfg env st patientId ⟨some false⟩).2 :=
        (congrArg Prod.snd heq).symm
      have hwf1 : CacheWF cfg st1 := by
        rw [hst1]
        exact CacheWF_loadOp cfg env st patientId ⟨some false⟩ h
      split
      · split
        · exact hwf1
        · exact hwf1
      · exact hwf1
  · next st1 heq =>
      have hst1 : st1 = (loadPatientData cfg env st patientId ⟨some false⟩).2 :=
        (congrArg Prod.snd heq).symm
      rw [hst1]
      exact CacheWF_loadOp cfg env st patientId ⟨some false⟩ h
  · next e st1 heq =>
      have hst1 : st1 = (loadPatientData cfg env st patientId ⟨some false⟩).2 :=
        (congrArg Prod.snd heq).symm
      rw [hst1]
      exact CacheWF_loadOp cfg env st patientId ⟨some false⟩ h

theorem CacheWF_saveTry (cfg : Config) (env : Env) (st : SvcState)
    (patientId : String) (data : JsValue) (opts : SaveOpts) (h : CacheWF cfg st) :
    CacheWF cfg (savePatientDataTry cfg env st patientId data opts).2 := by
  unfold savePatientDataTry
  by_cases hid : patientId = ""
  · simp only [hid, if_pos rfl]
    exact h
  · rw [if_neg hid]
    simp only [checkStorageQuota]
    split
    · exact h
    · by_cases hb : cfg.BACKUP_ENABLED ∧ opts.backup ≠ some false
      · rw [if_pos hb]
        have hwf1 := CacheWF_backup cfg env st patientId h
        split
        · exact hwf1
        · exact CacheWF_updateCache cfg _ _ _ hwf1
      · rw [if_neg hb]
        split
        · exact h
        · exact CacheWF_updateCache cfg _ _ _ h

theorem CacheWF_saveOp (cfg : Config) (env : Env) (st : SvcState)
    (patientId : String) (data : JsValue) (opts : SaveOpts) (h : CacheWF cfg st) :
    CacheWF cfg (savePatientData cfg env st patientId data opts).2 := by
  unfold savePatientData
  split
  · next b st' heq =>
      have hst' : st' = (savePatientDataTry cfg env st patientId data opts).2 :=
        (congrArg Prod.snd heq).symm
      rw [hst']
      exact CacheWF_saveTry cfg env st patientId data opts h
  · next e st' heq =>
      have hst' : st' = (savePatientDataTry cfg env st patientId data opts).2 :=
        (congrArg Prod.snd heq).symm
      have hwf' : CacheWF cfg st' := by
        rw [hst']
        exact CacheWF_saveTry cfg env st patientId data opts h
      rcases hpair : tryLocalStorageFallbackSave env st' patientId data with ⟨fb, st''⟩
      have hst'' : st'' = if env.lsOk
          then { st' with ls := kvSet st'.ls (generateKey patientId) (jsonEncode data) }
          else st' := by
        have h2 := tryLsSave_state env st' patientId data
        rw [hpair] at h2
        exact h2
      have hwf'' : CacheWF cfg st'' := by
        rw [hst'']
        split
        · exact hwf'
        · exact hwf'
      simp only [hpair]
      split
      · exact hwf''
      · exact hwf''

theorem CacheWF_updateOp (cfg : Config) (env : Env) (st : SvcState)
    (patientId : String) (updates : JsValue) (opts : SaveOpts) (h : CacheWF cfg st) :
    CacheWF cfg (updatePatientData cfg env st patientId updates opts).2 := by
  unfold updatePatientData
  split
  · next e st1 heq =>
      have hst1 : st1 = (loadPatientData cfg env st patientId {}).2 :=
        (congrArg Prod.snd heq).symm
      rw [hst1]
      exact CacheWF_loadOp cfg env st patientId {} h
  · next ex st1 heq =>
      have hst1 : st1 = (loadPatientData cfg env st patientId {}).2 :=
        (congrArg Prod.snd heq).symm
      have hwf1 : CacheWF cfg st1 := by
        rw [hst1]
        exact CacheWF_loadOp cfg env st patientId {} h
      split
      · split
        · exact CacheWF_saveOp cfg env st1 patientId _ opts hwf1
        · exact hwf1
      · exact hwf1

theorem CacheWF_deleteOp (cfg : Config) (env : Env) (st : SvcState)
    (patientId : String) (opts : SaveOpts) (h : CacheWF cfg st) :
    CacheWF cfg (deletePatientData cfg env st patientId opts).2 := by
  unfold deletePatientData
  by_cases hid : patientId = ""
  · simp only [hid, if_pos rfl]
    exact h
  · rw [if_neg hid]
    by_cases hb : cfg.BACKUP_ENABLED ∧ opts.backup ≠ some false
    · rw [if_pos hb]
      have hwf1 := CacheWF_backup cfg env st patientId h
      split
      · exact hwf1
      · exact CacheWF_deleteStep cfg _ _ hwf1 _
    · rw [if_neg hb]
      split
      · exact h
      · exact CacheWF_deleteStep cfg _ _ h _

theorem saveMultipleStep_state (cfg : Config) (env : Env) (acc : BatchResults)
    (st : SvcState) (it : String × JsValue) :
    (saveMultipleStep cfg env (acc, st) it).2
      = (savePatientData cfg env st it.1 it.2 ⟨some false⟩).2 := by
  unfold saveMultipleStep
  rcases hsv : savePatientData cfg env st it.1 it.2 ⟨some false⟩ with ⟨r, st'⟩
  simp only [hsv]
  cases r <;> rfl

theorem CacheWF_saveManyFold (cfg : Config) (env : Env) :
    ∀ (items : List (String × JsValue)) (acc : BatchResults) (st : SvcState),
    CacheWF cfg st →
    CacheWF cfg (items.foldl (saveMultipleStep cfg env) (acc, st)).2
  | [], acc, st, h => h
  | hd :: tl, acc, st, h => by
      rw [List.foldl_cons]
      rcases hstep : saveMultipleStep cfg env (acc, st) hd with ⟨acc', st'⟩
      have hst' : st' = (savePatientData cfg env st hd.1 hd.2 ⟨some false⟩).2 := by
        rw [← saveMultipleStep_state cfg env acc st hd, hstep]
      have hwf' : CacheWF cfg st' := by
        rw [hst']
        exact CacheWF_saveOp cfg env st hd.1 hd.2 ⟨some false⟩ h
      exact CacheWF_saveManyFold cfg env tl acc' st' hwf'

theorem CacheWF_clearCache (cfg : Config) (st : SvcState) :
    CacheWF cfg (clearCache st) := by
  refine ⟨by simp [clearCache], by simp [clearCache], fun k => by simp [clearCache], ?_⟩
  simp [clearCache]

/-- The store operations of the `StorageService` public surface that
touch the cache (C8's "sequence of store operations").  `loadAllPatients`,
`exportPatients` and `importPatients` are compositions of these. -/
inductive SvcOp where
  | opSave (patientId : String) (data : JsValue) (opts : SaveOpts)
  | opLoad (patientId : String) (opts : LoadOpts)
  | opUpdate (patientId : String) (updates : JsValue) (opts : SaveOpts)
  | opDelete (patientId : String) (opts : SaveOpts)
  | opSaveMany (patients : List (String × JsValue))
  | opClearCache

/-- Runs one store operation (the result value is irrelevant to the cache
invariant). -/
def runOp (cfg : Config) (env : Env) (st : SvcState) : SvcOp → SvcState
  | .opSave patientId data opts => (savePatientData cfg env st patientId data opts).2
  | .opLoad patientId opts => (loadPatientData cfg env st patientId opts).2
  | .opUpdate patientId updates opts => (updatePatientData cfg env st patientId updates opts).2
  | .opDelete patientId opts => (deletePatientData cfg env st patientId opts).2
  | .opSaveMany patients => (saveMultiplePatients cfg env st patients).2
  | .opClearCache => clearCache st

/-- Runs a sequence of store operations, each under its own environment. -/
def runOps (cfg : Config) (st : SvcState) (ops : List (SvcOp × Env)) : SvcState :=
  ops.foldl (fun s oe => runOp cfg oe.2 s oe.1) st

theorem CacheWF_runOp (cfg : Config) (env : Env) (st : SvcState) (op : SvcOp)
    (h : CacheWF cfg st) : CacheWF cfg (runOp cfg env st op) := by
  cases op with
  | opSave patientId data opts => exact CacheWF_saveOp cfg env st patientId data opts h
  | opLoad patientId opts => exact CacheWF_loadOp cfg env st patientId opts h
  | opUpdate patientId updates opts => exact CacheWF_updateOp cfg env st patientId updates opts h
  | opDelete patientId opts => exact CacheWF_deleteOp cfg env st patientId opts h
  | opSaveMany patients => exact CacheWF_saveManyFold cfg env patients _ st h
  | opClearCache => exact CacheWF_clearCache cfg st

theorem CacheWF_runOps (cfg : Config) :
    ∀ (ops : List (SvcOp × Env)) (st : SvcState), CacheWF cfg st →
    CacheWF cfg (runOps cfg st ops)
  | [], st, h => h
  | oe :: tl, st, h => by
      rw [runOps, List.foldl_cons]
      exact CacheWF_runOps cfg tl _ (CacheWF_runOp cfg oe.2 st oe.1 h)

theorem take_append_take (a l : List α) (n : Nat) :
    (a ++ l.take n).take n = (a ++ l).take n := by
  rw [List.take_append_eq_append_take, List.take_append_eq_append_take,
    List.take_take, Nat.min_eq_left (Nat.sub_le n a.length)]

/-- With the order in sync and the cache at most one entry over the
limit, the eviction loop pops exactly the overage off the back: the
resulting order is `order.take limit`. -/
theorem evictLoop_order_take (limit fuel : Nat) (cache : List (String × JsValue))
    (order : List String)
    (hk : (cache.map Prod.fst).Nodup) (ho : order.Nodup)
    (hs : ∀ k, k ∈ order ↔ k ∈ cache.map Prod.fst)
    (hover : cache.length ≤ limit + 1)
    (hfuel : cache.length ≤ limit + fuel) :
    (evictLoop limit fuel cache order).2 = order.take limit := by
  have hperm : order.Perm (cache.map Prod.fst) :=
    (List.perm_ext_iff_of_nodup ho hk).2 hs
  have hlen2 : order.length = cache.length := by simpa using hperm.length_eq
  cases fuel with
  | zero =>
      have : cache.length ≤ limit := by omega
      rw [List.take_of_length_le (by omega)]
      rfl
  | succ f =>
      unfold evictLoop
      by_cases hle : cache.length ≤ limit
      · rw [if_pos hle, List.take_of_length_le (by omega)]
      · rw [if_neg hle]
        have hlen3 : cache.length = limit + 1 := by omega
        have hne : order ≠ [] := by
          intro hnil
          rw [hnil] at hlen2
          simp at hlen2
          omega
        match hlast : order.getLast? with
        | none => exact absurd (List.getLast?_eq_none_iff.1 hlast) hne
        | some k0 =>
            have hdl : order.dropLast ++ [k0] = order := by
              have h1 := List.dropLast_append_getLast hne
              have h2 : order.getLast hne = k0 := by
                have h3 := List.getLast?_eq_getLast_of_ne_nil hne
                rw [h3] at hlast
                exact Option.some_inj.1 hlast
              rwa [h2] at h1
            have hk0mem : k0 ∈ order := by
              rw [← hdl]
              exact List.mem_append_right _ (by simp)
            have hk0cache : k0 ∈ cache.map Prod.fst := (hs k0).1 hk0mem
            have hdellen : (kvDel cache k0).length = limit := by
              have h1 := congrArg List.length (kvDel_map_fst cache k0)
              rw [List.length_erase_of_mem hk0cache] at h1
              simp only [List.length_map] at h1
              omega
            have hres : (evictLoop limit f (kvDel cache k0) order.dropLast).2
                = order.dropLast := by
              cases f with
              | zero => rfl
              | succ f' =>
                  unfold evictLoop
                  rw [if_pos (le_of_eq hdellen)]
            rw [hres, List.dropLast_eq_take]
            congr 1
            omega

/-- `_updateCache` on a fresh key in a well-formed state: the new order
is the key pushed on the front, truncated to the capacity. -/
theorem updateCache_order_fresh (cfg : Config) (st : SvcState) (key : String)
    (data : JsValue) (hwf : CacheWF cfg st)
    (habs : kvGet st.cache key = none) :
    (updateCache cfg st key data).cacheOrder
      = (key :: st.cacheOrder).take cfg.CACHE_SIZE := by
  obtain ⟨hk, ho, hs, hlen⟩ := hwf
  have hperm : st.cacheOrder.Perm (st.cache.map Prod.fst) :=
    (List.perm_ext_iff_of_nodup ho hk).2 hs
  have hlen2 : st.cacheOrder.length = st.cache.length := by
    simpa using hperm.length_eq
  have hkmem : key ∉ st.cache.map Prod.fst := by
    intro hc
    rw [← kvGet_isSome_iff_mem, habs] at hc
    simp at hc
  unfold updateCache
  simp only [habs, Option.isSome_none, Bool.false_eq_true, if_false]
  rw [kvSet_fresh _ _ _ habs]
  exact evictLoop_order_take cfg.CACHE_SIZE (key :: st.cacheOrder).length
    (st.cache ++ [(key, data)]) (key :: st.cacheOrder)
    (by
      rw [List.map_append]
      exact List.nodup_append.2 ⟨hk, by simp, by simpa using hkmem⟩)
    (List.nodup_cons.2 ⟨fun hc => hkmem ((hs key).1 hc), ho⟩)
    (fun k => by
      rw [List.mem_cons, List.map_append, List.mem_append]
      constructor
      · rintro (rfl | hm)
        · exact Or.inr (by simp)
        · exact Or.inl ((hs k).1 hm)
      · rintro (hm | hm)
        · exact Or.inr ((hs k).2 hm)
        · simp at hm
          exact Or.inl hm)
    (by simp; omega)
    (by simp; omega)

/-- A sequence of default-option `loadPatientData` calls (the scenario of
C8's "loading N+k distinct records"). -/
def runLoads (cfg : Config) (env : Env) (st : SvcState) (ids : List String) : SvcState :=
  ids.foldl (fun s i => (loadPatientData cfg env s i {}).2) st

/-- Loading distinct, present, uncached records in sequence keeps the
cache well-formed and leaves the access order equal to the reversed list
of accessed keys (most recent first), truncated to the capacity. -/
theorem runLoads_lru (cfg : Config) (env : Env)
    (hget : env.idbGetOk = true) (hset : env.idbSetOk = true) :
    ∀ (ids : List String) (st : SvcState),
    CacheWF cfg st →
    ids.Nodup →
    (∀ i ∈ ids, i ≠ "" ∧ ∃ v, kvGet st.idb (generateKey i) = some v
      ∧ v.jsTruthy = true ∧ v.jsTypeof = "object") →
    (∀ i ∈ ids, kvGet st.cache (generateKey i) = none) →
    CacheWF cfg (runLoads cfg env st ids)
    ∧ (runLoads cfg env st ids).cacheOrder
        = ((ids.map generateKey).reverse ++ st.cacheOrder).take cfg.CACHE_SIZE
  | [], st, hwf, _, _, _ => by
      obtain ⟨hk, ho, hs, hlen⟩ := hwf
      have hperm : st.cacheOrder.Perm (st.cache.map Prod.fst) :=
        (List.perm_ext_iff_of_nodup ho hk).2 hs
      have hlen2 : st.cacheOrder.length = st.cache.length := by
        simpa using hperm.length_eq
      refine ⟨⟨hk, ho, hs, hlen⟩, ?_⟩
      simp only [List.map_nil, List.reverse_nil, List.nil_append]
      rw [List.take_of_length_le (by omega)]
      rfl
  | i :: tl, st, hwf, hnodup, hpresent, hfresh => by
      obtain ⟨hi0, v, hv, hvt, hvo⟩ := hpresent i (List.mem_cons_self i tl)
      have hfi := hfresh i (List.mem_cons_self i tl)
      have hload := loadPatientData_backend_hit cfg env st i {} v hi0 hget hset
        (Or.inr hfi) hv hvt hvo
      have hndtl : tl.Nodup := hnodup.of_cons
      have hinotl : i ∉ tl := (List.nodup_cons.1 hnodup).1
      have hstep : runLoads cfg env st (i :: tl)
          = runLoads cfg env
            { updateCache cfg st (generateKey i) v with
                idb := kvSet (updateCache cfg st (generateKey i) v).idb
                  (generateKey i) (enrichPatientData cfg v i .opAccess env.now) } tl := by
        show runLoads cfg env (loadPatientData cfg env st i {}).2 tl = _
        rw [hload]
      have hwf' : CacheWF cfg { updateCache cfg st (generateKey i) v with
          idb := kvSet (updateCache cfg st (generateKey i) v).idb
            (generateKey i) (enrichPatientData cfg v i .opAccess env.now) } :=
        CacheWF_updateCache cfg st (generateKey i) v hwf
      have horder' : (updateCache cfg st (generateKey i) v).cacheOrder
          = (generateKey i :: st.cacheOrder).take cfg.CACHE_SIZE :=
        updateCache_order_fresh cfg st (generateKey i) v hwf hfi
      have hpresent' : ∀ j ∈ tl, j ≠ "" ∧ ∃ w,
          kvGet (kvSet (updateCache cfg st (generateKey i) v).idb
            (generateKey i) (enrichPatientData cfg v i .opAccess env.now))
            (generateKey j) = some w
          ∧ w.jsTruthy = true ∧ w.jsTypeof = "object" := by
        intro j hj
        obtain ⟨hj0, w, hw, hwt, hwo⟩ := hpresent j (List.mem_cons_of_mem i hj)
        refine ⟨hj0, w, ?_, hwt, hwo⟩
        rw [kvGet_kvSet_ne _ _ _ _ (fun heq =>
          hinotl (generateKey_injective i j heq ▸ hj)), updateCache_idb]
        exact hw
      have hfresh' : ∀ j ∈ tl,
          kvGet (updateCache cfg st (generateKey i) v).cache (generateKey j) = none := by
        intro j hj
        obtain ⟨hk', ho', hs', _⟩ := CacheWF_updateCache cfg st (generateKey i) v hwf
        have hnotmem : generateKey j ∉ (updateCache cfg st (generateKey i) v).cacheOrder := by
          rw [horder']
          intro hmem
          have hmem2 := List.take_subset _ _ hmem
          rcases List.mem_cons.1 hmem2 with heq | hmem3
          · exact hinotl (generateKey_injective i j heq.symm ▸ hj)
          · obtain ⟨_, _, hs0, _⟩ := hwf
            have := (hs0 (generateKey j)).1 hmem3
            rw [← kvGet_isSome_iff_mem] at this
            rw [hfresh j (List.mem_cons_of_mem i hj)] at this
            simp at this
        have := (hs' (generateKey j))
        cases hkv : kvGet (updateCache cfg st (generateKey i) v).cache (generateKey j) with
        | none => rfl
        | some w =>
            exfalso
            apply hnotmem
            apply this.2
            rw [← kvGet_isSome_iff_mem, hkv]
            rfl
      have hih := runLoads_lru cfg env hget hset tl
        { updateCache cfg st (generateKey i) v with
            idb := kvSet (updateCache cfg st (generateKey i) v).idb
              (generateKey i) (enrichPatientData cfg v i .opAccess env.now) }
        hwf' hndtl hpresent' hfresh'
      rw [hstep]
      refine ⟨hih.1, ?_⟩
      rw [hih.2]
      show (_ ++ (updateCache cfg st (generateKey i) v).cacheOrder).take _ = _
      rw [horder', take_append_take]
      simp only [List.map_cons, List.reverse_cons, List.append_assoc,
        List.singleton_append]

/-- Claim C8: after every sequence of store operations the recency cache
holds at most `CACHE_SIZE` entries (100 in the shipped `CONFIG`); and
when insertions overflow the capacity the least-recently-used entries are
evicted, so after loading distinct records from a cold cache the cache
holds exactly the most recently accessed keys, most recent first,
truncated to the capacity (in particular, after N+k distinct loads it
holds exactly the N most recently accessed ids). -/
theorem cache_bound_and_lru (cfg : Config) :
    (∀ ops : List (SvcOp × Env),
      (runOps cfg emptyState ops).cache.length ≤ cfg.CACHE_SIZE)
    ∧ CONFIG.CACHE_SIZE = 100
    ∧ (∀ (env : Env) (st : SvcState) (ids : List String),
        env.idbGetOk = true → env.idbSetOk = true →
        st.cache = [] → st.cacheOrder = [] →
        ids.Nodup →
        (∀ i ∈ ids, i ≠ "" ∧ ∃ v, kvGet st.idb (generateKey i) = some v
          ∧ v.jsTruthy = true ∧ v.jsTypeof = "object") →
        (runLoads cfg env st ids).cacheOrder
            = ((ids.map generateKey).reverse).take cfg.CACHE_SIZE
        ∧ ∀ k, (kvGet (runLoads cfg env st ids).cache k).isSome = true
            ↔ k ∈ ((ids.map generateKey).reverse).take cfg.CACHE_SIZE) := by
  refine ⟨?_, rfl, ?_⟩
  · intro ops
    exact (CacheWF_runOps cfg ops emptyState (CacheWF_emptyState cfg)).2.2.2
  · intro env st ids hget hset hc ho hnodup hpresent
    have hwf : CacheWF cfg st := by
      refine ⟨by rw [hc]; simp, by rw [ho]; simp, fun k => by rw [hc, ho]; simp, ?_⟩
      rw [hc]
      simp
    have hfresh : ∀ i ∈ ids, kvGet st.cache (generateKey i) = none := by
      intro i _
      rw [hc]
      rfl
    have hmain := runLoads_lru cfg env hget hset ids st hwf hnodup hpresent hfresh
    obtain ⟨⟨hk, hond, hsync, _⟩, horder⟩ := hmain
    rw [ho, List.append_nil] at horder
    refine ⟨horder, ?_⟩
    intro k
    rw [kvGet_isSome_iff_mem, ← hsync k, horder]

/-- The concrete backend contents for the C8 witness scenario. -/
def c8State : SvcState :=
  { idb := [("patient-a", janeRec), ("patient-b", janeRec), ("patient-c", janeRec)] }

theorem cache_bound_and_lru_witness :
    (runOps ({ CACHE_SIZE := 2 } : Config) emptyState
        [(.opSave "a" janeRec {}, {}), (.opLoad "a" {}, {}),
          (.opDelete "a" {}, {})]).cache.length ≤ ({ CACHE_SIZE := 2 } : Config).CACHE_SIZE
    ∧ CONFIG.CACHE_SIZE = 100
    ∧ (Env.idbGetOk {} = true ∧ Env.idbSetOk {} = true
        ∧ c8State.cache = [] ∧ c8State.cacheOrder = []
        ∧ (["a", "b", "c"] : List String).Nodup)
    ∧ ((runLoads ({ CACHE_SIZE := 2 } : Config) {} c8State ["a", "b", "c"]).cacheOrder
          = ["patient-c", "patient-b"]
        ∧ ∀ k, (kvGet (runLoads ({ CACHE_SIZE := 2 } : Config) {} c8State
              ["a", "b", "c"]).cache k).isSome = true
            ↔ k ∈ (["patient-c", "patient-b"] : List String)) :=
  ⟨(cache_bound_and_lru ({ CACHE_SIZE := 2 } : Config)).1 _,
    rfl,
    ⟨rfl, rfl, rfl, rfl, by decide⟩,
    (cache_bound_and_lru ({ CACHE_SIZE := 2 } : Config)).2.2 {} c8State ["a", "b", "c"]
      rfl rfl rfl rfl (by decide)
      (by
        intro i hi
        simp at hi
        rcases hi with rfl | rfl | rfl
        · exact ⟨by decide, janeRec, rfl, rfl, rfl⟩
        · exact ⟨by decide, janeRec, rfl, rfl, rfl⟩
        · exact ⟨by decide, janeRec, rfl, rfl, rfl⟩)⟩
